import Mathlib

/-!
Verification of the redka storage core (SQLite/PostgreSQL-backed Redis
data engine) against its specification.

The development shallowly embeds the relational data model (`rkey`,
`rhash`, `rlist` tables of the SQL schema) and the repository operations
of the hash repository (package `rhash`), the list repository (package
`rlist`), the transaction envelope (`sqlx.DB.execTx`), and the query
adapter functions (`sqlx.ConvertPlaceholders`, `sqlx.AdaptPostgresQuery`).

Conventions of the embedding:
  * byte strings (Go `[]byte` / SQL BYTEA-BLOB values) are modelled as
    Lean `String`;
  * times (ms since epoch) are `Int`;
  * the SQL `REAL` list position is modelled as `Rat`; the repository
    only ever compares positions and adds 1, where rationals and binary
    floats agree exactly;
  * a SQL row set is a `List` of row structures; queries with no
    `ORDER BY` return rows in table (rowid) order, as SQLite does for
    these query shapes, and well-formedness records that the table list
    is rowid-ordered;
  * a statement that fails (constraint violation mapped by `TypedError`,
    `sql.ErrNoRows` mapped to `ErrNotFound`) surfaces as `Except.error`;
    per the transaction envelope an error aborts the transaction, so an
    erroring operation yields no successor state.
-/

namespace Redka

/-- The stable error identifiers of `internal/core` used by the storage
core: `ErrNotFound`, `ErrKeyType`, `ErrValueType`. -/
inductive Err where
  | notFound
  | keyType
  | valueType
deriving Repr, DecidableEq

/-- One row of the `rkey` table:
`rkey(id, key, type, version, etime NULL, mtime, len NULL)`. -/
structure KeyRow where
  id : Nat
  key : String
  typ : Nat
  version : Nat
  etime : Option Int
  mtime : Int
  len : Option Int
deriving Repr, DecidableEq

/-- One row of the `rhash` table: `rhash(kid, field, value)`; `rowid` is
SQLite's implicit rowid, used by the hash scan cursor. -/
structure HashRow where
  rowid : Nat
  kid : Nat
  field : String
  value : String
deriving Repr, DecidableEq

/-- One row of the `rlist` table: `rlist(kid, pos REAL, elem)`. -/
structure ListRow where
  kid : Nat
  pos : Rat
  elem : String
deriving Repr, DecidableEq

/-- The database state: the `rkey` table plus the typed payload tables
used by the verified repositories. -/
structure Db where
  rkey : List KeyRow
  rhash : List HashRow
  rlist : List ListRow
deriving Repr, DecidableEq

/-- The SQL liveness filter `(etime is null or etime > ?)` applied to an
`rkey` row at time `now`. -/
def keyLive (r : KeyRow) (now : Int) : Bool :=
  match r.etime with
  | none => true
  | some e => now < e

/-- `select id, ... from rkey where key = ? and type = ? and (etime is
null or etime > ?)` — the live typed key lookup shared by the typed
repositories (at most one row thanks to the unique index on `key`). -/
def findLiveTyped (db : Db) (key : String) (typ : Nat) (now : Int) : Option KeyRow :=
  db.rkey.find? (fun r => r.key == key && r.typ == typ && keyLive r now)

/-- The join `rhash join rkey on kid = rkey.id and type = 4 where key = ?
and (etime is null or etime > ?)` shared by all hash queries: the hash
rows whose owning key row is live and of type hash. -/
def hashRowsFor (db : Db) (now : Int) (key : String) : List HashRow :=
  db.rhash.filter (fun h =>
    db.rkey.any (fun k => h.kid == k.id && k.key == key && k.typ == 4 && keyLive k now))

/-- The join `rlist join rkey on kid = rkey.id and type = 2 where key = ?
and (etime is null or etime > ?)` shared by the list queries. -/
def listRowsFor (db : Db) (now : Int) (key : String) : List ListRow :=
  db.rlist.filter (fun h =>
    db.rkey.any (fun k => h.kid == k.id && k.key == key && k.typ == 2 && keyLive k now))

/-- A fresh `rkey.id` (SERIAL / autoincrement): one more than the largest
id in use. -/
def freshId (db : Db) : Nat :=
  (db.rkey.map (·.id)).foldl max 0 + 1

/-- A fresh `rhash` rowid: one more than the largest rowid in use. -/
def freshHashRowid (db : Db) : Nat :=
  (db.rhash.map (·.rowid)).foldl max 0 + 1

/-- The `type` setter of the `on conflict (key) do update` clause used by
every typed create-if-missing upsert:
`type = case when rkey.type = excluded.type then rkey.type else null end`.
`none` is SQL NULL, which the NOT NULL constraint on `rkey.type`
rejects. -/
def conflictType (cur excludedTyp : Nat) : Option Nat :=
  if cur = excludedTyp then some cur else none

/-- Well-formedness of a database state, as guaranteed by the SQL schema:
the unique index on `rkey.key`, primary key `rkey.id`, the foreign keys
of `rhash`, the unique index on `rhash(kid, field)` and on
`rlist(kid, pos)`, and SQLite's strictly increasing positive rowids
(the `rhash` list is kept in rowid order, the table order in which
SQLite returns rows for the scan query). -/
structure Wf (db : Db) : Prop where
  keysNodup : (db.rkey.map (·.key)).Nodup
  idsNodup : (db.rkey.map (·.id)).Nodup
  hashFk : ∀ h ∈ db.rhash, ∃ k ∈ db.rkey, k.id = h.kid
  hashNodup : (db.rhash.map (fun h => (h.kid, h.field))).Nodup
  hashRowidSorted : db.rhash.Pairwise (fun a b => a.rowid < b.rowid)
  hashRowidPos : ∀ h ∈ db.rhash, 0 < h.rowid
  listPosNodup : (db.rlist.map (fun r => (r.kid, r.pos))).Nodup

/-- The facts threaded through `SetMany`'s per-field loop: the unique
key index and the `rhash` foreign key hold, and the target key is either
absent or a live hash (the situations in which `SetMany` succeeds). -/
structure HKeyInv (now : Int) (key : String) (db : Db) : Prop where
  keysNodup : (db.rkey.map (·.key)).Nodup
  fk : ∀ h ∈ db.rhash, ∃ k ∈ db.rkey, k.id = h.kid
  keyOk : db.rkey.find? (fun r => r.key == key) = none ∨
    ∃ r, db.rkey.find? (fun r => r.key == key) = some r ∧ r.typ = 4 ∧
      keyLive r now = true

/-! ## Hash repository mutations (`rhash` package)

`sqlSet1` is the create-if-missing upsert on `rkey`:

    insert into rkey (key, type, version, mtime, len)
    values (?, 4, 1, ?, 0)
    on conflict (key) do update set
      type = case when type = excluded.type then type else null end,
      version = version+1,
      mtime = excluded.mtime
    returning id

On conflict with a row of a different type the CASE yields NULL, the
NOT NULL constraint on `rkey.type` aborts the statement, and
`sqlx.TypedError` maps the constraint violation to `ErrKeyType`. -/

/-- The `sqlSet1` upsert. Returns the key id of the inserted or updated
row. (The Go `sql.ErrNoRows` fallback after this statement is dead code:
`on conflict do update ... returning id` always returns a row.) -/
def hUpsertKey (db : Db) (now : Int) (key : String) : Except Err (Db × Nat) :=
  match db.rkey.find? (fun r => r.key == key) with
  | none =>
      let id := freshId db
      .ok ({ db with rkey := db.rkey ++ [⟨id, key, 4, 1, none, now, some 0⟩] }, id)
  | some r =>
      match conflictType r.typ 4 with
      | none => .error .keyType
      | some t =>
          .ok ({ db with rkey := db.rkey.map (fun x =>
                  if x.key == key then
                    { x with typ := t, version := x.version + 1, mtime := now }
                  else x) }, r.id)

/-- `sqlSet2`: `insert into rhash (kid, field, value) values (?, ?, ?)
on conflict (kid, field) do update set value = excluded.value`, together
with the `rkey.len` maintenance of a fresh field insert (the
`update_rkey_on_rhash_insert` trigger of `schema_postgres.sql`; the
SQLite schema maintains `len` equivalently). -/
def hUpsertField (db : Db) (kid : Nat) (field value : String) : Db :=
  if db.rhash.any (fun h => h.kid == kid && h.field == field) then
    { db with rhash := db.rhash.map (fun h =>
        if h.kid == kid && h.field == field then { h with value := value } else h) }
  else
    { db with
        rhash := db.rhash ++ [⟨freshHashRowid db, kid, field, value⟩],
        rkey := db.rkey.map (fun k =>
          if k.id == kid then { k with len := some (k.len.getD 0 + 1) } else k) }

/-- `Tx.set` of the hash repository: run `sqlSet1` then `sqlSet2`. -/
def hSetOne (db : Db) (now : Int) (key field value : String) : Except Err Db := do
  let (db1, kid) ← hUpsertKey db now key
  .ok (hUpsertField db1 kid field value)

/-- `sqlCount` / `Tx.count`: the number of live hash rows of `key` whose
field is among `fields`. -/
def hCount (db : Db) (now : Int) (key : String) (fields : List String) : Nat :=
  ((hashRowsFor db now key).filter (fun h => fields.contains h.field)).length

/-- `Tx.Set`: count the field, then upsert it; reports whether the field
was created (did not exist before). -/
def hSet (db : Db) (now : Int) (key field value : String) : Except Err (Db × Bool) := do
  let existCount := hCount db now key [field]
  let db1 ← hSetOne db now key field value
  .ok (db1, existCount == 0)

/-- The per-field loop of `Tx.SetMany`. -/
def hSetList (db : Db) (now : Int) (key : String) : List (String × String) → Except Err Db
  | [] => .ok db
  | (f, v) :: rest => do
      let db1 ← hSetOne db now key f v
      hSetList db1 now key rest

/-- `Tx.SetMany`: count the existing fields among the given ones, set
every given field, and return `len(items) - existCount`, the number of
created fields. -/
def hSetMany (db : Db) (now : Int) (key : String) (items : List (String × String)) :
    Except Err (Db × Int) := do
  let fields := items.map (·.1)
  let existCount := hCount db now key fields
  let db1 ← hSetList db now key items
  .ok (db1, (items.length : Int) - existCount)

/-! ## List repository mutations (`rlist` package) -/

/-- `sqlPush`, the create-if-missing upsert on `rkey` used by
`PushBack`/`PushFront`:

    insert into rkey (key, type, version, mtime, len)
    values (?, 2, 1, ?, 1)
    on conflict (key) do update set
      type = case when type = excluded.type then type else null end,
      version = version + 1,
      mtime = excluded.mtime,
      len = len + 1
    returning id, len

Same NOT NULL CASE trick as the hash upsert. Returns `(id, len)`. -/
def lUpsertKey (db : Db) (now : Int) (key : String) : Except Err (Db × Nat × Int) :=
  match db.rkey.find? (fun r => r.key == key) with
  | none =>
      let id := freshId db
      .ok ({ db with rkey := db.rkey ++ [⟨id, key, 2, 1, none, now, some 1⟩] }, id, 1)
  | some r =>
      match conflictType r.typ 2 with
      | none => .error .keyType
      | some t =>
          let newLen := r.len.map (· + 1)
          .ok ({ db with rkey := db.rkey.map (fun x =>
                  if x.key == key then
                    { x with typ := t, version := x.version + 1, mtime := now,
                             len := x.len.map (· + 1) }
                  else x) }, r.id, newLen.getD 0)

/-- The maximum `pos` among list rows, `none` over an empty set
(SQL `max(pos)`). -/
def maxPos (rows : List ListRow) : Option Rat :=
  rows.foldl (fun acc r =>
    match acc with
    | none => some r.pos
    | some m => some (max m r.pos)) none

/-- `Tx.push` with `sqlPushBack`: upsert the key, then
`insert into rlist (kid, pos, elem) select ?, coalesce(max(pos)+1, 0), ?
from rlist where kid = ?`. Returns the new list length reported by the
upsert. -/
def lPushBack (db : Db) (now : Int) (key elem : String) : Except Err (Db × Int) := do
  let (db1, kid, len) ← lUpsertKey db now key
  let pos := match maxPos (db1.rlist.filter (fun r => r.kid == kid)) with
    | none => 0
    | some m => m + 1
  .ok ({ db1 with rlist := db1.rlist ++ [⟨kid, pos, elem⟩] }, len)

/-- `Tx.Delete` of the hash repository: nothing to do on an empty field
list; otherwise run `sqlDelete1`

    delete from rhash
    where kid = (select id from rkey
                 where key = ? and type = 4 and (etime is null or etime > ?))
      and field in (:fields)

and, only when at least one row was deleted, `sqlDelete2`

    update rkey set version = version + 1, mtime = ?, len = len - ?
    where key = ? and type = 4 and (etime is null or etime > ?).

`hDeleteBump` is the SET clause of `sqlDelete2` applied to one
`rkey` row. -/
def hDeleteBump (now : Int) (n : Int) (x : KeyRow) : KeyRow :=
  { x with
    version := x.version + 1
    mtime := now
    len := x.len.map (· - n) }

def hDelete (db : Db) (now : Int) (key : String) (fields : List String) :
    Except Err (Db × Nat) :=
  if fields.isEmpty then .ok (db, 0)
  else
    match findLiveTyped db key 4 now with
    | none => .ok (db, 0)
    | some k =>
        let n := (db.rhash.filter (fun h => h.kid == k.id && fields.contains h.field)).length
        if n = 0 then .ok (db, 0)
        else
          let rhash1 := db.rhash.filter (fun h => !(h.kid == k.id && fields.contains h.field))
          let rkey1 := db.rkey.map (fun x =>
            if x.key == key && x.typ == 4 && keyLive x now then hDeleteBump now n x else x)
          .ok (⟨rkey1, rhash1, db.rlist⟩, n)

/-- C10 witness database: one live hash key `"h"` (id 1, len 2) holding
fields `a` and `b`. -/
def dbW10 : Db :=
  ⟨[⟨1, "h", 4, 1, none, 0, some 2⟩],
   [⟨1, 1, "a", "1"⟩, ⟨2, 1, "b", "2"⟩], []⟩

/-! ## Hash repository reads -/

/-- SQLite's GLOB matcher (an external primitive of the engine, used by
the scan queries through `field glob ?`): `*` matches any run, `?` any
single character, other characters literally; matching is
case-sensitive. (Bracket classes are not modelled; no theorem depends on
the matcher's behaviour.) -/
def globMatch : List Char → List Char → Bool
  | [], [] => true
  | [], _ :: _ => false
  | '*' :: p, s =>
      globMatch p s ||
        (match s with
         | [] => false
         | _ :: s2 => globMatch ('*' :: p) s2)
  | '?' :: p, s =>
      (match s with
       | [] => false
       | _ :: s2 => globMatch p s2)
  | c :: p, s =>
      (match s with
       | [] => false
       | c2 :: s2 => c == c2 && globMatch p s2)
termination_by p s => (s.length, p.length)

/-- `sqlGet` / `Tx.Get` of the hash repository: first row of the live
join with the given field; `sql.ErrNoRows` maps to `ErrNotFound`. -/
def hGet (db : Db) (now : Int) (key field : String) : Except Err String :=
  match (hashRowsFor db now key).find? (fun h => h.field == field) with
  | none => .error .notFound
  | some h => .ok h.value

/-- `sqlLen` / `Tx.Len`: read the cached `rkey.len` of the live hash
key; `sql.ErrNoRows` maps to 0. -/
def hLen (db : Db) (now : Int) (key : String) : Int :=
  match findLiveTyped db key 4 now with
  | none => 0
  | some k => k.len.getD 0

/-- `sqlFields` / `Tx.Fields`. -/
def hFields (db : Db) (now : Int) (key : String) : List String :=
  (hashRowsFor db now key).map (·.field)

/-- `sqlItems` / `Tx.Items` (the Go map modelled as the association list
of rows). -/
def hItems (db : Db) (now : Int) (key : String) : List (String × String) :=
  (hashRowsFor db now key).map (fun h => (h.field, h.value))

/-- `Tx.GetMany`: empty on no fields; the `sqlGet` path for one field;
the `sqlGetMany` `in (:fields)` path otherwise. Fields that do not exist
are absent from the result. -/
def hGetMany (db : Db) (now : Int) (key : String) (fields : List String) :
    List (String × String) :=
  match fields with
  | [] => []
  | [f] => ((hashRowsFor db now key).filter (fun h => h.field == f)).map
      (fun h => (h.field, h.value))
  | _ => ((hashRowsFor db now key).filter (fun h => fields.contains h.field)).map
      (fun h => (h.field, h.value))

/-- Default hash scan page size (`scanPageSize = 10`). -/
def scanPageSize : Nat := 10

/-- `sqlScan` / `Tx.Scan`:

    select rhash.rowid, field, value
    from rhash join rkey on kid = rkey.id and type = 4
    where key = ? and (etime is null or etime > ?)
      and rhash.rowid > ? and field glob ?
    limit ?

The rows come back in rowid (table) order — well-formedness keeps
`db.rhash` in that order. The returned cursor is the maximum rowid of
the page (`maxID`, 0 for an empty page). -/
def hScan (db : Db) (now : Int) (key : String) (cursor : Nat) (pattern : String)
    (count : Nat) : Nat × List HashRow :=
  let count := if count == 0 then scanPageSize else count
  let page := ((hashRowsFor db now key).filter (fun h =>
      decide (cursor < h.rowid) && globMatch pattern.data h.field.data)).take count
  let maxID := page.foldl (fun m it => if m < it.rowid then it.rowid else m) 0
  (maxID, page)

/-- Repeated cursor iteration of the hash scan: call `Tx.Scan`, stop on
an empty page, otherwise continue from the returned cursor (the
`Scanner` loop of the repository; fuel keeps the model total — the
claim's theorem shows the matched-row count plus one suffices). Returns
the pages and whether an empty page was reached. -/
def hScanSteps (db : Db) (now : Int) (key pattern : String) (count : Nat) :
    Nat → Nat → List (List HashRow) × Bool
  | 0, _ => ([], false)
  | fuel + 1, cursor =>
      let out := hScan db now key cursor pattern count
      if out.2.isEmpty then ([], true)
      else
        let rest := hScanSteps db now key pattern count fuel out.1
        (out.2 :: rest.1, rest.2)

/-! ## List repository reads and pops -/

/-- `sqlLen` / `Tx.Len` of the list repository. -/
def lLen (db : Db) (now : Int) (key : String) : Int :=
  match findLiveTyped db key 2 now with
  | none => 0
  | some k => k.len.getD 0

/-- Insertion sort of list rows by ascending `pos`
(`order by pos asc`). -/
def insertAscPos (r : ListRow) : List ListRow → List ListRow
  | [] => [r]
  | x :: xs => if r.pos ≤ x.pos then r :: x :: xs else x :: insertAscPos r xs

def sortAscPos : List ListRow → List ListRow
  | [] => []
  | x :: xs => insertAscPos x (sortAscPos xs)

/-- Insertion sort of list rows by descending `pos`
(`order by pos desc`, the query text after the `Asc`→`Desc`
replacement in `Tx.Get`/`Tx.Set`). -/
def insertDescPos (r : ListRow) : List ListRow → List ListRow
  | [] => [r]
  | x :: xs => if x.pos ≤ r.pos then r :: x :: xs else x :: insertDescPos r xs

def sortDescPos : List ListRow → List ListRow
  | [] => []
  | x :: xs => insertDescPos x (sortDescPos xs)

/-- `row_number() over (order by pos ...)`: pair each element with its
1-based row number. -/
def withRownum : List String → Nat → List (Nat × String)
  | [], _ => []
  | e :: rest, i => (i, e) :: withRownum rest (i + 1)

/-- `Tx.Get` of the list repository (`sqlGet`): number the elements of
the live list in ascending `pos` order (descending after the query
rewrite when `idx < 0`, with `idx` becoming `-idx-1`), and select the
row with `rownum = idx + 1`; no row maps to `ErrNotFound`. -/
def lGet (db : Db) (now : Int) (key : String) (idx : Int) : Except Err String :=
  let sorted := if idx < 0 then sortDescPos (listRowsFor db now key)
    else sortAscPos (listRowsFor db now key)
  let i := if idx < 0 then -idx - 1 else idx
  match (withRownum (sorted.map (·.elem)) 1).find? (fun p => (p.1 : Int) == i + 1) with
  | none => .error .notFound
  | some p => .ok p.2

/-- SQL `min(pos)` over a row set. -/
def minPos (rows : List ListRow) : Option Rat :=
  rows.foldl (fun acc r =>
    match acc with
    | none => some r.pos
    | some m => some (min m r.pos)) none

/-- The `rlist_on_delete` trigger of `schema_postgres.sql` applied to the
owning key row: `version = version + 1`, `mtime = now`, `len = len - 1`
(the SQLite schema maintains the same bookkeeping). -/
def lPopBumpRow (now : Int) (kid : Nat) (x : KeyRow) : KeyRow :=
  if x.id == kid then
    { x with
      version := x.version + 1
      mtime := now
      len := x.len.map (· - 1) }
  else x

/-- `Tx.pop` with `sqlPopBack`: delete the row of the live list with the
maximal `pos`, returning its element; no live key or an empty list maps
to `ErrNotFound`. -/
def lPopBack (db : Db) (now : Int) (key : String) : Except Err (String × Db) :=
  match findLiveTyped db key 2 now with
  | none => .error .notFound
  | some k =>
      let rows := db.rlist.filter (fun r => r.kid == k.id)
      match maxPos rows with
      | none => .error .notFound
      | some m =>
          match rows.find? (fun r => r.pos == m) with
          | none => .error .notFound
          | some victim =>
              let rlist1 := db.rlist.filter (fun r => !(r.kid == k.id && r.pos == m))
              .ok (victim.elem, ⟨db.rkey.map (lPopBumpRow now k.id), db.rhash, rlist1⟩)

/-- `Tx.pop` with `sqlPopFront`: same with the minimal `pos`. -/
def lPopFront (db : Db) (now : Int) (key : String) : Except Err (String × Db) :=
  match findLiveTyped db key 2 now with
  | none => .error .notFound
  | some k =>
      let rows := db.rlist.filter (fun r => r.kid == k.id)
      match minPos rows with
      | none => .error .notFound
      | some m =>
          match rows.find? (fun r => r.pos == m) with
          | none => .error .notFound
          | some victim =>
              let rlist1 := db.rlist.filter (fun r => !(r.kid == k.id && r.pos == m))
              .ok (victim.elem, ⟨db.rkey.map (lPopBumpRow now k.id), db.rhash, rlist1⟩)

/-- C4 witness database: key `"k"` of hash type with `etime = 10`,
owning one hash row. -/
def dbW4 : Db :=
  ⟨[⟨1, "k", 4, 3, some 10, 0, some 1⟩], [⟨1, 1, "a", "v"⟩], []⟩

/-- C5 witness database: live list key `"l"` with elements
`a, b, c` at positions `0, 1, 2`. -/
def dbW5 : Db :=
  ⟨[⟨1, "l", 2, 1, none, 0, some 3⟩], [],
   [⟨1, 0, "a"⟩, ⟨1, 1, "b"⟩, ⟨1, 2, "c"⟩]⟩

/-- C6 witness database: one live hash key `"h"` (id 1, len 3) holding
fields `a, b, c` at rowids 1, 2, 3. -/
def dbW6 : Db :=
  ⟨[⟨1, "h", 4, 1, none, 0, some 3⟩],
   [⟨1, 1, "a", "1"⟩, ⟨2, 1, "b", "2"⟩, ⟨3, 1, "c", "3"⟩], []⟩

/-- C7 witness database: one live hash key `"h"` (id 1, len 2) holding
fields `a` and `b`. -/
def dbW7 : Db :=
  ⟨[⟨1, "h", 4, 1, none, 0, some 2⟩],
   [⟨1, 1, "a", "1"⟩, ⟨2, 1, "b", "2"⟩], []⟩

/-! ## Transaction envelope (`sqlx.DB.execTx`)

Go source:

    func (d *DB[T]) execTx(ctx, writable bool, f func(tx T) error) error {
        var opts *sql.TxOptions
        if d.Driver == DriverPostgres && !writable {
            opts = &sql.TxOptions{ReadOnly: true}
        }
        if writable { dtx, err = d.RW.BeginTx(ctx, opts) }
        else        { dtx, err = d.RO.BeginTx(ctx, opts) }
        defer func() { _ = dtx.Rollback() }()
        err = f(tx)
        if err != nil { return err }
        return dtx.Commit()
    }

The deferred `Rollback` also runs when `f` panics (the panic propagates);
after a successful `Commit` it is a no-op. The model treats the
transaction as buffered: `Commit` installs the state produced by `f`,
`Rollback` discards it. -/

/-- The database driver selected at `Open`. -/
inductive Driver where
  | sqlite
  | postgres
deriving Repr, DecidableEq

/-- The two connection handles of `sqlx.DB`. -/
inductive Handle where
  | RW
  | RO
deriving Repr, DecidableEq

/-- Outcome of the closure `f` passed to the envelope: a Go `nil` return
with a new state, an error, or a panic. -/
inductive FnOut (σ : Type) where
  | ok : σ → FnOut σ
  | err : String → FnOut σ
  | panic : FnOut σ
deriving Repr, DecidableEq

/-- Observable effects of one `execTx` call. -/
structure TxRun (σ : Type) where
  handle : Handle
  readOnlyOpt : Bool
  committed : Bool
  finalState : σ
  result : FnOut Unit
deriving Repr, DecidableEq

/-- `DB.execTx`. -/
def execTx {σ : Type} (drv : Driver) (writable : Bool) (st : σ)
    (f : σ → FnOut σ) : TxRun σ :=
  { handle := if writable then Handle.RW else Handle.RO
    readOnlyOpt := drv == Driver.postgres && !writable
    committed := match f st with
      | .ok _ => true
      | _ => false
    finalState := match f st with
      | .ok st2 => st2
      | _ => st
    result := match f st with
      | .ok _ => .ok ()
      | .err e => .err e
      | .panic => .panic }

/-- `DB.Update` / `DB.UpdateContext`: `execTx` with `writable = true`. -/
def updateTx {σ : Type} (drv : Driver) (st : σ) (f : σ → FnOut σ) : TxRun σ :=
  execTx drv true st f

/-- `DB.View` / `DB.ViewContext`: `execTx` with `writable = false`. -/
def viewTx {σ : Type} (drv : Driver) (st : σ) (f : σ → FnOut σ) : TxRun σ :=
  execTx drv false st f

/-! ## Set and sorted-set store operations (modelled from the spec)

The `rset` and `rzset` repository sources (the implementations behind
`SInterStore`, `SUnionStore`, `SDiffStore`, `ZInterStore`,
`ZUnionStore`) are not part of this source tree — only their command
tests are. The definitions below are modelled from the spec, at the
level of logical key values:

  * §4.8 set combinators: `diff` — elements in the first key not in any
    other; `inter` — elements present in all keys, empty if any key is
    missing or wrong-typed; `union` — union across keys, wrong-typed
    keys skipped;
  * §4.8 sorted-set store inputs: each missing/wrong-typed key
    contributes an empty set; default weight 1, default aggregate sum;
  * §4.6/§7 destination rule: the result replaces `dest` atomically;
    if `dest` exists with a wrong type it is only replaced if the result
    is non-empty — otherwise `dest` is untouched and the op returns 0;
    a non-empty result on a wrong-typed `dest` raises `ErrKeyType`. -/

/-- A logical Redis value (type and payload) of one key. -/
inductive RVal where
  | str : String → RVal
  | listv : List String → RVal
  | set : List String → RVal
  | hash : List (String × String) → RVal
  | zset : List (String × Rat) → RVal
deriving Repr, DecidableEq

/-- Logical key-value state: one value per key name. -/
def kvGet (db : List (String × RVal)) (k : String) : Option RVal :=
  (db.find? (fun p => p.1 == k)).map (fun p => p.2)

def kvRemove (db : List (String × RVal)) (k : String) : List (String × RVal) :=
  db.filter (fun p => !(p.1 == k))

def kvPut (db : List (String × RVal)) (k : String) (v : RVal) : List (String × RVal) :=
  kvRemove db k ++ [(k, v)]

/-- The set payload of a key; a missing or wrong-typed key reads as the
empty set. -/
def getSetElems (db : List (String × RVal)) (k : String) : List String :=
  match kvGet db k with
  | some (RVal.set xs) => xs
  | _ => []

/-- Whether a key exists as a set. -/
def isSetKey (db : List (String × RVal)) (k : String) : Bool :=
  match kvGet db k with
  | some (RVal.set _) => true
  | _ => false

/-- The sorted-set payload of a key; missing/wrong-typed reads empty. -/
def getZSetElems (db : List (String × RVal)) (k : String) : List (String × Rat) :=
  match kvGet db k with
  | some (RVal.zset xs) => xs
  | _ => []

/-- The score of `e` in key `k` (0 when absent). -/
def zScoreOf (db : List (String × RVal)) (k : String) (e : String) : Rat :=
  match (getZSetElems db k).find? (fun p => p.1 == e) with
  | some p => p.2
  | none => 0

/-- Modelled from the spec: `diff(keys…)` — elements in the first key
not in any other. -/
def sDiffCompute (db : List (String × RVal)) : List String → List String
  | [] => []
  | k :: rest => (getSetElems db k).filter
      (fun e => rest.all (fun k2 => !(getSetElems db k2).contains e))

/-- Modelled from the spec: `inter(keys…)` — elements present in all
keys; if any key is missing or wrong-typed, the result is empty. -/
def sInterCompute (db : List (String × RVal)) (keys : List String) : List String :=
  if keys.any (fun k => !isSetKey db k) then []
  else
    match keys with
    | [] => []
    | k :: rest => (getSetElems db k).filter
        (fun e => rest.all (fun k2 => (getSetElems db k2).contains e))

/-- Modelled from the spec: `union(keys…)` — union across all keys,
wrong-typed keys skipped (they read as empty). -/
def sUnionCompute (db : List (String × RVal)) (keys : List String) : List String :=
  keys.foldl (fun acc k =>
    acc ++ (getSetElems db k).filter (fun e => !acc.contains e)) []

/-- Modelled from the spec: `zinterstore` input — elements present in
every key (a missing/wrong-typed key contributes an empty set), scores
aggregated with the default sum and weight 1. -/
def zInterCompute (db : List (String × RVal)) : List String → List (String × Rat)
  | [] => []
  | k :: rest =>
      ((getZSetElems db k).filter (fun p =>
        rest.all (fun k2 => (getZSetElems db k2).any (fun q => q.1 == p.1)))).map
          (fun p => (p.1, p.2 + (rest.map (fun k2 => zScoreOf db k2 p.1)).foldl (· + ·) 0))

/-- Modelled from the spec: `zunionstore` input — union of the keys'
elements with summed scores (weight 1, aggregate sum). -/
def zUnionCompute (db : List (String × RVal)) (keys : List String) : List (String × Rat) :=
  let elems := keys.foldl (fun acc k =>
    acc ++ ((getZSetElems db k).map (fun p => p.1)).filter (fun e => !acc.contains e)) []
  elems.map (fun e => (e, (keys.map (fun k => zScoreOf db k e)).foldl (· + ·) 0))

/-- Modelled from the spec (§4.6/§7 destination rule, set flavour):
an empty result leaves a wrong-typed `dest` untouched returning 0 (a
same-typed `dest` is cleared); a non-empty result overwrites `dest`,
raising `ErrKeyType` if `dest` exists with a different type. -/
def setStoreApply (db : List (String × RVal)) (dest : String)
    (result : List String) : Except Err (List (String × RVal) × Nat) :=
  if result.isEmpty then
    match kvGet db dest with
    | some (RVal.set _) => .ok (kvRemove db dest, 0)
    | some _ => .ok (db, 0)
    | none => .ok (db, 0)
  else
    match kvGet db dest with
    | some (RVal.set _) => .ok (kvPut db dest (RVal.set result), result.length)
    | none => .ok (kvPut db dest (RVal.set result), result.length)
    | some _ => .error .keyType

/-- Modelled from the spec: the same destination rule, sorted-set
flavour. -/
def zStoreApply (db : List (String × RVal)) (dest : String)
    (result : List (String × Rat)) : Except Err (List (String × RVal) × Nat) :=
  if result.isEmpty then
    match kvGet db dest with
    | some (RVal.zset _) => .ok (kvRemove db dest, 0)
    | some _ => .ok (db, 0)
    | none => .ok (db, 0)
  else
    match kvGet db dest with
    | some (RVal.zset _) => .ok (kvPut db dest (RVal.zset result), result.length)
    | none => .ok (kvPut db dest (RVal.zset result), result.length)
    | some _ => .error .keyType

/-- Modelled from the spec: `diffStore(dest, keys…)`. -/
def sDiffStore (db : List (String × RVal)) (dest : String) (keys : List String) :
    Except Err (List (String × RVal) × Nat) :=
  setStoreApply db dest (sDiffCompute db keys)

/-- Modelled from the spec: `interStore(dest, keys…)`. -/
def sInterStore (db : List (String × RVal)) (dest : String) (keys : List String) :
    Except Err (List (String × RVal) × Nat) :=
  setStoreApply db dest (sInterCompute db keys)

/-- Modelled from the spec: `unionStore(dest, keys…)`. -/
def sUnionStore (db : List (String × RVal)) (dest : String) (keys : List String) :
    Except Err (List (String × RVal) × Nat) :=
  setStoreApply db dest (sUnionCompute db keys)

/-- Modelled from the spec: `zinterstore(dest, keys…)` with default
weights and aggregate. -/
def zInterStore (db : List (String × RVal)) (dest : String) (keys : List String) :
    Except Err (List (String × RVal) × Nat) :=
  zStoreApply db dest (zInterCompute db keys)

/-- Modelled from the spec: `zunionstore(dest, keys…)` with default
weights and aggregate. -/
def zUnionStore (db : List (String × RVal)) (dest : String) (keys : List String) :
    Except Err (List (String × RVal) × Nat) :=
  zStoreApply db dest (zUnionCompute db keys)

/-! ## Go string helpers and the dialect adapter

`sqlx.ConvertPlaceholders` and `sqlx.AdaptPostgresQuery` are plain
string rewriting built on the Go standard library (`strings.Contains`,
`strings.Replace`, `strings.ReplaceAll`, `strings.Index`,
`strings.Split`, `strings.TrimSpace`). The helpers below embed those
library functions on `List Char` (the query strings are ASCII, so byte
indices and character indices coincide); the adapters are then
transliterated statement by statement. -/

/-- `strings.Contains`: whether `sub` occurs in the scanned list. -/
def goContainsAux (sub : List Char) : List Char → Bool
  | [] => List.isPrefixOf sub []
  | c :: rest => List.isPrefixOf sub (c :: rest) || goContainsAux sub rest

def goContains (s sub : String) : Bool :=
  goContainsAux sub.data s.data

/-- `strings.Index` as an option: position of the first occurrence. -/
def goIndexAux (sub : List Char) : List Char → Option Nat
  | [] => if List.isPrefixOf sub [] then some 0 else none
  | c :: rest =>
      if List.isPrefixOf sub (c :: rest) then some 0
      else (goIndexAux sub rest).map (· + 1)

/-- `strings.Replace` worker: replace the leftmost occurrences of `old`
(non-overlapping) with `new`, at most `n` of them; `fuel` bounds the
scan (one character is consumed per step, so the string's length is
enough fuel whenever `old` is non-empty, as it is at every call
site). -/
def goReplaceAux (old new : List Char) : Nat → Nat → List Char → List Char
  | _, _, [] => []
  | 0, _, s => s
  | _, 0, s => s
  | fuel + 1, n + 1, c :: rest =>
      if List.isPrefixOf old (c :: rest) then
        new ++ goReplaceAux old new fuel n ((c :: rest).drop old.length)
      else
        c :: goReplaceAux old new fuel (n + 1) rest

/-- `strings.Replace(s, old, new, n)`: `n < 0` replaces all. -/
def goReplace (s old new : String) (n : Int) : String :=
  let cnt : Nat := if n < 0 then s.data.length + 1 else n.toNat
  String.mk (goReplaceAux old.data new.data s.data.length cnt s.data)

/-- `strings.ReplaceAll`. -/
def goReplaceAll (s old new : String) : String :=
  goReplace s old new (-1)

/-- `strings.Split` worker (non-empty separator; fuel as above). -/
def goSplitAux (sep : List Char) : Nat → List Char → List Char → List (List Char)
  | _, acc, [] => [acc.reverse]
  | 0, acc, s => [acc.reverse ++ s]
  | fuel + 1, acc, c :: rest =>
      if List.isPrefixOf sep (c :: rest) then
        acc.reverse :: goSplitAux sep fuel [] ((c :: rest).drop sep.length)
      else
        goSplitAux sep fuel (c :: acc) rest

def goSplit (s sep : String) : List String :=
  (goSplitAux sep.data s.data.length [] s.data).map (fun cs => String.mk cs)

/-- ASCII whitespace (the characters `strings.TrimSpace` strips from
these queries). -/
def isGoSpace (c : Char) : Bool :=
  c == ' ' || c == '\t' || c == '\n' || c == '\r' || c == '\x0b' || c == '\x0c'

/-- `strings.TrimSpace` on ASCII text. -/
def goTrimSpace (s : String) : String :=
  String.mk (((s.data.dropWhile isGoSpace).reverse.dropWhile isGoSpace).reverse)

/-- `sqlx.ConvertPlaceholders` body: each `?` becomes `$1`, `$2`, … in
a single left-to-right scan. -/
def convertPlaceholdersGo : Nat → List Char → List Char
  | _, [] => []
  | paramNum, c :: rest =>
      if c == '?' then
        ('$' :: (Nat.repr paramNum).data) ++ convertPlaceholdersGo (paramNum + 1) rest
      else
        c :: convertPlaceholdersGo paramNum rest

/-- `sqlx.ConvertPlaceholders`: rewrites `?` placeholders to `$N` when
the query contains any; the function itself has no driver check. -/
def ConvertPlaceholders (query : String) : String :=
  if goContains query "?" then
    String.mk (convertPlaceholdersGo 1 query.data)
  else query

/-- The ambiguous-column fixes of `AdaptPostgresQuery`, guarded in the
source by `Contains "ON CONFLICT" || Contains "on conflict"`. -/
def adaptConflictAmbig (query : String) : String :=
  let query := if goContains query "type = CASE WHEN type = excluded.type" then
      goReplace query "type = CASE WHEN type = excluded.type THEN type ELSE null END"
        "type = CASE WHEN rkey.type = excluded.type THEN rkey.type ELSE null END" (-1)
    else query
  let query := if goContains query "type = case when type = excluded.type" then
      goReplace query "type = case when type = excluded.type then type else null end"
        "type = CASE WHEN rkey.type = excluded.type THEN rkey.type ELSE null END" (-1)
    else query
  let query := if goContains query "version = version+1" then
      goReplace query "version = version+1" "version = rkey.version+1" (-1)
    else query
  let query := if goContains query "version = version + 1" then
      goReplace query "version = version + 1" "version = rkey.version + 1" (-1)
    else query
  let query := if goContains query "mtime = excluded.mtime" then
      goReplace query "mtime = excluded.mtime" "mtime = excluded.mtime" (-1)
    else query
  let query := if goContains query "etime = excluded.etime" then
      goReplace query "etime = excluded.etime" "etime = excluded.etime" (-1)
    else query
  if goContains query "len = len + 1" then
    goReplace query "len = len + 1" "len = rkey.len + 1" (-1)
  else query

/-- The ON CONFLICT case-folding of `AdaptPostgresQuery`, guarded in
the source by `Contains "on conflict"`; with a RETURNING clause the
query is split on `"returning"`, the clause re-appended at the end. -/
def adaptConflictCase (query : String) : String :=
  if goContains query "returning" then
    let parts := goSplit query "returning"
    if 1 < parts.length then
      let q0 := parts.headD ""
      let returningClause := "RETURNING" ++ (parts.drop 1).headD ""
      if goContains q0 "on conflict" then
        let q1 := goReplace q0 "on conflict" "ON CONFLICT" (-1)
        let q2 := goReplace q1 "do update set" "DO UPDATE SET" (-1)
        q2 ++ " " ++ returningClause
      else q0
    else query
  else
    let q1 := goReplace query "on conflict" "ON CONFLICT" (-1)
    let q2 := goReplace q1 "do update set" "DO UPDATE SET" (-1)
    goReplace q2 "do nothing" "DO NOTHING" (-1)

/-- The CASE-expression upper-casing of `AdaptPostgresQuery`, guarded
in the source by `Contains "case when"`. -/
def adaptCaseUpper (query : String) : String :=
  let query := goReplace query "case when" "CASE WHEN" (-1)
  let query := goReplace query "then" "THEN" (-1)
  let query := goReplace query "else" "ELSE" (-1)
  goReplace query "end" "END" (-1)

/-- The `limit X, Y` → `LIMIT Y OFFSET X` rewrite of
`AdaptPostgresQuery` (byte slicing done on the character list). -/
def adaptLimitComma (query : String) : String :=
  match goIndexAux "limit".data query.data with
  | none => query
  | some limStartIdx =>
      let restOfQuery : List Char := query.data.drop limStartIdx
      let limEndIdx : Nat :=
        match goIndexAux [';'] restOfQuery with
        | some semicolonPos => limStartIdx + semicolonPos
        | none => query.data.length
      let limitClause : List Char := (query.data.take limEndIdx).drop limStartIdx
      if limitClause.contains ',' then
        let parts := goSplitAux [','] (limitClause.drop 6).length [] (limitClause.drop 6)
        if parts.length == 2 then
          let x := goTrimSpace (String.mk (parts.headD []))
          let y := goTrimSpace (String.mk ((parts.drop 1).headD []))
          let newLimitClause := "LIMIT " ++ y ++ " OFFSET " ++ x
          String.mk (query.data.take limStartIdx) ++ newLimitClause ++
            String.mk (query.data.drop limEndIdx)
        else query
      else query

/-- The keyword upper-casing cascade of `AdaptPostgresQuery`: the
source's `ReplaceAll` lines applied in order. -/
def adaptKeywordUpper (query : String) : String :=
  [("and field in (:fields)", "AND field IN (:fields)"),
   ("and field = ?", "AND field = ?"),
   ("and (", "AND ("),
   ("and elem in", "AND elem IN"),
   ("and elem = ?", "AND elem = ?"),
   ("and score between", "AND score BETWEEN"),
   ("and ", "AND "),
   (" and ", " AND "),
   ("\nand ", "\nAND "),
   ("and\n", "AND\n"),
   ("or ", "OR "),
   (" or ", " OR "),
   ("\nor ", "\nOR "),
   ("or\n", "OR\n"),
   ("where ", "WHERE "),
   (" where ", " WHERE "),
   ("\nwhere ", "\nWHERE "),
   ("join ", "JOIN "),
   (" join ", " JOIN "),
   ("\njoin ", "\nJOIN "),
   ("order by ", "ORDER BY "),
   (" order by ", " ORDER BY "),
   ("\norder by ", "\nORDER BY "),
   ("group by ", "GROUP BY "),
   (" group by ", " GROUP BY "),
   ("\ngroup by ", "\nGROUP BY ")].foldl
    (fun q p => goReplaceAll q p.1 p.2) query

/-- The JOIN column-qualification fixes of `AdaptPostgresQuery`,
guarded in the source by `Contains "JOIN"` (the `type = N` replacements
replace the first occurrence only). -/
def adaptJoinQualify (query : String) : String :=
  let query := if goContains query "type = 1" then
      goReplace query "type = 1" "rkey.type = 1" 1 else query
  let query := if goContains query "type = 2" then
      goReplace query "type = 2" "rkey.type = 2" 1 else query
  let query := if goContains query "type = 3" then
      goReplace query "type = 3" "rkey.type = 3" 1 else query
  let query := if goContains query "type = 4" then
      goReplace query "type = 4" "rkey.type = 4" 1 else query
  let query := if goContains query "type = 5" then
      goReplace query "type = 5" "rkey.type = 5" 1 else query
  let query := goReplace query "on kid = rkey.id and" "on kid = rkey.id AND" (-1)
  let query := if goContains query "WHERE key =" && goContains query "etime is null" then
      goReplace query "etime is null" "rkey.etime is null" (-1) else query
  if goContains query "WHERE key =" && goContains query "etime >" then
    goReplace query "etime >" "rkey.etime >" (-1)
  else query

/-- `sqlx.AdaptPostgresQuery`: the full SQLite-to-PostgreSQL rewrite,
ending in `ConvertPlaceholders`. Note the GLOB handling (lines
370–373 of the source): the operator text ` glob ` becomes ` ILIKE `,
and no rewriting of `*` or `?` glob wildcards to LIKE wildcards
appears anywhere in the function. -/
def AdaptPostgresQuery (query : String) : String :=
  let query := if goContains query "update or replace" then
      goReplaceAll query "update or replace" "update" else query
  let query := goReplaceAll query "rowid" "ctid::text"
  let query := goReplaceAll query " glob " " ILIKE "
  let query := goReplaceAll query "field glob" "field ILIKE"
  let query := goReplaceAll query "elem glob" "elem ILIKE"
  let query := if goContains query "in ()" then
      goReplaceAll query "in ()" "= ANY(\x27\x7b\x7d\x27::text[])" else query
  let query := if goContains query "ON CONFLICT" || goContains query "on conflict" then
      adaptConflictAmbig query else query
  let query := if goContains query "on conflict" then
      adaptConflictCase query else query
  let query := if goContains query "case when" then
      adaptCaseUpper query else query
  let query := if goContains query "limit\n" then
      goReplaceAll query "limit\n" "LIMIT " else query
  let query := if goContains query "limit" then
      adaptLimitComma query else query
  let query := adaptKeywordUpper query
  let query := if goContains query "JOIN" then
      adaptJoinQualify query else query
  ConvertPlaceholders query

/-- The canonical text of `sqlDelete2` (rhash): the length-update
statement of `Tx.Delete`. -/
def sqlDelete2 : String :=
  "\n\tupdate rkey set\n\t\tversion = version + 1,\n\t\tmtime = ?,\n\t\tlen = len - ?\n\twhere key = ? and type = 4 and (etime is null or etime > ?)"

/-- The canonical text of `sqlScan` (rhash): the page query of
`Tx.Scan`. -/
def sqlScan : String :=
  "\n\tselect rhash.rowid, field, value\n\tfrom rhash join rkey on kid = rkey.id and type = 4\n\twhere\n\t\tkey = ? and (etime is null or etime > ?)\n\t\tand rhash.rowid > ? and field glob ?\n\tlimit ?"

/-- The query text `Tx.Delete` (rhash) executes for its length-update
step on each engine: the code runs
`query = sqlx.ConvertPlaceholders(sqlDelete2)` unconditionally before
`tx.tx.Exec`; on PostgreSQL the `PostgresTx` wrapper additionally
applies `AdaptPostgresQuery` inside `Exec`. -/
def hDeleteLenQuery (drv : Driver) : String :=
  match drv with
  | Driver.postgres => AdaptPostgresQuery (ConvertPlaceholders sqlDelete2)
  | Driver.sqlite => ConvertPlaceholders sqlDelete2

/-- One `Tx.Scan` (rhash) database call: the query text the engine
receives and the bound arguments, in the source's order
`[key, now, cursor, pattern, count]`. `Tx.Scan` passes `sqlScan` as
written to `tx.tx.Query`; only the PostgreSQL wrapper rewrites it. -/
structure ScanCall where
  query : String
  argKey : String
  argNow : Int
  argCursor : Nat
  argPattern : String
  argCount : Nat
deriving Repr, DecidableEq

def hScanExec (drv : Driver) (key : String) (now : Int) (cursor : Nat)
    (pattern : String) (count : Nat) : ScanCall :=
  let count := if count == 0 then scanPageSize else count
  { query := match drv with
      | Driver.postgres => AdaptPostgresQuery sqlScan
      | Driver.sqlite => sqlScan
    argKey := key
    argNow := now
    argCursor := cursor
    argPattern := pattern
    argCount := count }

/-- What the spec's words describe for the pattern: glob wildcards
translated to LIKE wildcards, `*` → `%` and `?` → `_`. Stated from the
spec for comparison with the source functions above, where no such
translation exists. -/
def globToLikeSpec (pattern : String) : String :=
  String.mk (pattern.data.map (fun c =>
    if c == '*' then '%' else if c == '?' then '_' else c))

/-- A small logical state used to exhibit the destination rule: `"d"`
is a string key, `"k1"`/`"k2"` disjoint sets. -/
def c1StoreDemoDb : List (String × RVal) :=
  [("d", RVal.str "old"), ("k1", RVal.set ["a"]), ("k2", RVal.set ["b"])]

/-! ## Theorems -/

/-- Members of a duplicate-free `rkey` table are determined by their
key. -/
theorem keyRow_unique (db : Db) (hnodup : (db.rkey.map (·.key)).Nodup) {x y : KeyRow}
    (hx : x ∈ db.rkey) (hy : y ∈ db.rkey) (hkey : x.key = y.key) : x = y :=
  List.inj_on_of_nodup_map hnodup hx hy hkey

/-- Every member (and the seed) bounds a `foldl max`. -/
theorem foldl_max_bound (l : List Nat) : ∀ acc x, x ∈ l ∨ x = acc → x ≤ l.foldl max acc := by
  induction l with
  | nil =>
      intro acc x hx
      rcases hx with h | h
      · cases h
      · simp [h]
  | cons a t ih =>
      intro acc x hx
      rw [List.foldl_cons]
      rcases hx with h | h
      · rcases List.mem_cons.mp h with h1 | h1
        · subst h1
          exact le_trans (le_max_right acc x) (ih (max acc x) (max acc x) (Or.inr rfl))
        · exact ih _ _ (Or.inl h1)
      · subst h
        exact le_trans (le_max_left x a) (ih (max x a) (max x a) (Or.inr rfl))

/-- A fresh key id is unused in `rkey`. -/
theorem freshId_not_id (db : Db) (k : KeyRow) (hk : k ∈ db.rkey) :
    k.id ≠ freshId db := by
  have hb : k.id ≤ (db.rkey.map (·.id)).foldl max 0 :=
    foldl_max_bound _ 0 _ (Or.inl (List.mem_map_of_mem _ hk))
  rw [freshId]
  omega

/-- Under the `rhash` foreign key, no hash row references a fresh key
id. -/
theorem fresh_kid_unused (db : Db)
    (fk : ∀ h ∈ db.rhash, ∃ k ∈ db.rkey, k.id = h.kid) :
    ∀ h ∈ db.rhash, h.kid ≠ freshId db := by
  intro h hm
  obtain ⟨k, hk, hid⟩ := fk h hm
  rw [← hid]
  exact freshId_not_id db k hk

/-- When `key` names a live hash row `r` in a duplicate-free `rkey`
table, the hash join for `key` selects exactly the rows with
`kid = r.id`. -/
theorem hashRowsFor_filter_kid (db : Db) (now : Int) (key : String)
    (hnodup : (db.rkey.map (·.key)).Nodup) (r : KeyRow)
    (hfind : db.rkey.find? (fun x => x.key == key) = some r)
    (htyp : r.typ = 4) (hlive : keyLive r now = true) :
    hashRowsFor db now key = db.rhash.filter (fun h => h.kid == r.id) := by
  have hrmem := List.mem_of_find?_eq_some hfind
  have hrkey : r.key = key := by simpa using List.find?_some hfind
  rw [hashRowsFor]
  refine List.filter_congr ?_
  intro h _
  by_cases hkid : h.kid = r.id
  · have hany : db.rkey.any (fun k =>
        h.kid == k.id && k.key == key && k.typ == 4 && keyLive k now) = true := by
      refine List.any_eq_true.mpr ⟨r, hrmem, ?_⟩
      simp [hkid, hrkey, htyp, hlive]
    rw [hany]
    simp [hkid]
  · have hany : db.rkey.any (fun k =>
        h.kid == k.id && k.key == key && k.typ == 4 && keyLive k now) = false := by
      rw [List.any_eq_false]
      intro k hkm hc
      simp only [Bool.and_eq_true, beq_iff_eq] at hc
      obtain ⟨⟨⟨hck, hckey⟩, _⟩, _⟩ := hc
      have : k = r := keyRow_unique db hnodup hkm hrmem (by rw [hckey, hrkey])
      exact hkid (by rw [hck, this])
    rw [hany]
    simp [hkid]

/-- `keyLive` depends only on `etime`. -/
theorem keyLive_eq_of_etime {x y : KeyRow} (h : x.etime = y.etime) (now : Int) :
    keyLive x now = keyLive y now := by
  rw [keyLive, keyLive, h]

/-- `any` respects pointwise equality on members. -/
theorem any_congr_mem {α} (l : List α) (p q : α → Bool) (h : ∀ x ∈ l, p x = q x) :
    l.any p = l.any q := by
  induction l with
  | nil => rfl
  | cons a t ih =>
      simp only [List.any_cons, h a (by simp)]
      rw [ih (fun x hx => h x (by simp [hx]))]

/-- `find?` of the key predicate commutes with a key-preserving row
map. -/
theorem find?_key_map (l : List KeyRow) (m : KeyRow → KeyRow)
    (hm : ∀ x, (m x).key = x.key) (key : String) :
    (l.map m).find? (fun x => x.key == key) =
      (l.find? (fun x => x.key == key)).map m := by
  rw [List.find?_map]
  have hp : ((fun x : KeyRow => x.key == key) ∘ m) =
      (fun x : KeyRow => x.key == key) := by
    funext x
    simp [Function.comp, hm]
  rw [hp]

/-- The hash join is unchanged by an `rkey` row map that preserves `id`,
`key`, `type` and `etime` on members (the payload tables may differ on
the `rlist` side, which the join ignores). -/
theorem hashRowsFor_rkey_map (rkeys : List KeyRow) (rh : List HashRow)
    (rl rl2 : List ListRow) (m : KeyRow → KeyRow) (now : Int) (key : String)
    (hid : ∀ x ∈ rkeys, (m x).id = x.id) (hkey : ∀ x ∈ rkeys, (m x).key = x.key)
    (htyp : ∀ x ∈ rkeys, (m x).typ = x.typ)
    (het : ∀ x ∈ rkeys, (m x).etime = x.etime) :
    hashRowsFor ⟨rkeys.map m, rh, rl⟩ now key = hashRowsFor ⟨rkeys, rh, rl2⟩ now key := by
  rw [hashRowsFor, hashRowsFor]
  refine List.filter_congr ?_
  intro h _
  show (rkeys.map m).any _ = rkeys.any _
  rw [List.any_map]
  refine any_congr_mem _ _ _ ?_
  intro x hx
  simp only [Function.comp_apply, hid x hx, hkey x hx, htyp x hx]
  rw [keyLive_eq_of_etime (het x hx)]

/-- A key absent from `rkey` has an empty hash join. -/
theorem hashRowsFor_nil_of_absent (db : Db) (now : Int) (key : String)
    (hfind : db.rkey.find? (fun x => x.key == key) = none) :
    hashRowsFor db now key = [] := by
  rw [hashRowsFor, List.filter_eq_nil_iff]
  intro h _ hc
  obtain ⟨k, hk, hck⟩ := List.any_eq_true.mp hc
  simp only [Bool.and_eq_true, beq_iff_eq] at hck
  have := List.find?_eq_none.mp hfind k hk
  simp [hck.1.1.2] at this

/-- C10: hash `Delete` with an empty field list, or with fields none of
which live in the hash, returns 0 and leaves the database unchanged (no
version/mtime/len change); when `n ≥ 1` rows are deleted it removes
exactly those rows, decrements the key's `len` by `n` and increments its
`version` once, leaving every other `rkey` row and the other tables
untouched. -/
theorem c10_hash_delete_frame (db : Db) (now : Int) (key : String)
    (fields : List String) (hwf : Wf db) :
    hDelete db now key [] = .ok (db, 0) ∧
    ((∀ h ∈ hashRowsFor db now key, h.field ∉ fields) →
      hDelete db now key fields = .ok (db, 0)) ∧
    (∀ k0, findLiveTyped db key 4 now = some k0 →
      0 < (db.rhash.filter (fun h => h.kid == k0.id && fields.contains h.field)).length →
      hDelete db now key fields =
        .ok (⟨db.rkey.map (fun x =>
                if x.key == key then
                  hDeleteBump now ((db.rhash.filter (fun h =>
                    h.kid == k0.id && fields.contains h.field)).length : Int) x
                else x),
              db.rhash.filter (fun h => !(h.kid == k0.id && fields.contains h.field)),
              db.rlist⟩,
            (db.rhash.filter (fun h => h.kid == k0.id && fields.contains h.field)).length)) := by
  refine ⟨by simp [hDelete], ?_, ?_⟩
  · intro hnone
    by_cases hemp : fields.isEmpty
    · simp [hDelete, hemp]
    · cases hfind : findLiveTyped db key 4 now with
      | none => simp [hDelete, hemp, hfind]
      | some k =>
          have hfind' : db.rkey.find?
              (fun r => r.key == key && r.typ == 4 && keyLive r now) = some k := hfind
          have hkmem : k ∈ db.rkey := List.mem_of_find?_eq_some hfind'
          have hkp := List.find?_some hfind'
          have hnil : (db.rhash.filter
              (fun h => h.kid == k.id && fields.contains h.field)) = [] := by
            rw [List.filter_eq_nil_iff]
            intro h hmem hcond
            simp only [Bool.and_eq_true, beq_iff_eq] at hcond
            have hin : h ∈ hashRowsFor db now key := by
              refine List.mem_filter.mpr ⟨hmem, ?_⟩
              refine List.any_eq_true.mpr ⟨k, hkmem, ?_⟩
              simp only [Bool.and_eq_true, beq_iff_eq] at hkp ⊢
              exact ⟨⟨⟨hcond.1, hkp.1.1⟩, hkp.1.2⟩, hkp.2⟩
            exact hnone h hin (by simpa using hcond.2)
          have hn0 : (db.rhash.filter
              (fun h => h.kid == k.id && fields.contains h.field)).length = 0 := by
            rw [hnil]; rfl
          have hempF : fields.isEmpty = false := by
            revert hemp; cases fields.isEmpty <;> simp
          simp only [hDelete, hempF, Bool.false_eq_true, if_false, hfind, hn0,
            if_pos rfl, if_true]
  · intro k0 hfind hpos
    have hfind' : db.rkey.find?
        (fun r => r.key == key && r.typ == 4 && keyLive r now) = some k0 := hfind
    have hk0mem : k0 ∈ db.rkey := List.mem_of_find?_eq_some hfind'
    have hk0p := List.find?_some hfind'
    simp only [Bool.and_eq_true, beq_iff_eq] at hk0p
    obtain ⟨⟨hk0key, hk0typ⟩, hk0live⟩ := hk0p
    have hemp : fields.isEmpty = false := by
      rcases fields with _ | ⟨f, fs⟩
      · simp at hpos
      · rfl
    have hmap : db.rkey.map (fun x =>
        if x.key == key && x.typ == 4 && keyLive x now then
          hDeleteBump now ((db.rhash.filter (fun h =>
            h.kid == k0.id && fields.contains h.field)).length : Int) x
        else x) =
      db.rkey.map (fun x =>
        if x.key == key then
          hDeleteBump now ((db.rhash.filter (fun h =>
            h.kid == k0.id && fields.contains h.field)).length : Int) x
        else x) := by
      refine List.map_congr_left ?_
      intro x hx
      by_cases hxkey : x.key = key
      · have hxeq : x = k0 := keyRow_unique db hwf.keysNodup hx hk0mem (by rw [hxkey, hk0key])
        subst hxeq
        simp [hxkey, hk0typ, hk0live]
      · simp [hxkey]
    have hne : ¬((db.rhash.filter
        (fun h => h.kid == k0.id && fields.contains h.field)).length = 0) :=
      Nat.pos_iff_ne_zero.mp hpos
    simp only [hDelete, hemp, Bool.false_eq_true, if_false, hfind, hne, if_false]
    rw [hmap]

/-- A key all of whose `rkey` rows are expired fails the SQL liveness
filter for every type. -/
theorem dead_findLiveTyped (db : Db) (now : Int) (key : String)
    (hdead : ∀ r ∈ db.rkey, r.key = key → ∃ e, r.etime = some e ∧ e ≤ now)
    (t : Nat) : findLiveTyped db key t now = none := by
  rw [findLiveTyped, List.find?_eq_none]
  intro r hr hp
  simp only [Bool.and_eq_true, beq_iff_eq] at hp
  obtain ⟨⟨hkey, _⟩, hlive⟩ := hp
  obtain ⟨e, he, hle⟩ := hdead r hr hkey
  rw [keyLive, he] at hlive
  simp only [decide_eq_true_eq] at hlive
  omega

/-- The hash join returns no rows for a key all of whose `rkey` rows are
expired. -/
theorem dead_hashRowsFor (db : Db) (now : Int) (key : String)
    (hdead : ∀ r ∈ db.rkey, r.key = key → ∃ e, r.etime = some e ∧ e ≤ now) :
    hashRowsFor db now key = [] := by
  rw [hashRowsFor, List.filter_eq_nil_iff]
  intro h _ hc
  obtain ⟨k, hk, hck⟩ := List.any_eq_true.mp hc
  simp only [Bool.and_eq_true, beq_iff_eq] at hck
  obtain ⟨⟨⟨_, hkey⟩, _⟩, hlive⟩ := hck
  obtain ⟨e, he, hle⟩ := hdead k hk hkey
  rw [keyLive, he] at hlive
  simp only [decide_eq_true_eq] at hlive
  omega

/-- The list join returns no rows for a key all of whose `rkey` rows are
expired. -/
theorem dead_listRowsFor (db : Db) (now : Int) (key : String)
    (hdead : ∀ r ∈ db.rkey, r.key = key → ∃ e, r.etime = some e ∧ e ≤ now) :
    listRowsFor db now key = [] := by
  rw [listRowsFor, List.filter_eq_nil_iff]
  intro h _ hc
  obtain ⟨k, hk, hck⟩ := List.any_eq_true.mp hc
  simp only [Bool.and_eq_true, beq_iff_eq] at hck
  obtain ⟨⟨⟨_, hkey⟩, _⟩, hlive⟩ := hck
  obtain ⟨e, he, hle⟩ := hdead k hk hkey
  rw [keyLive, he] at hlive
  simp only [decide_eq_true_eq] at hlive
  omega

/-- Effect of one `Tx.set` (`hSetOne`) under the `SetMany` invariant: it
succeeds, preserves the invariant, makes the field read back as the
written value, and leaves every other field's read unchanged. -/
theorem hSetOne_ok (db : Db) (now : Int) (key f v : String)
    (inv : HKeyInv now key db) :
    ∃ db', hSetOne db now key f v = .ok db' ∧ HKeyInv now key db' ∧
      hGet db' now key f = .ok v ∧
      (∀ g, g ≠ f → hGet db' now key g = hGet db now key g) := by
  rcases inv.keyOk with habs | ⟨r, hfind, htyp, hlive⟩
  · -- the key is absent: a fresh rkey row and a fresh rhash row are inserted
    have hanyf : db.rhash.any (fun h => h.kid == freshId db && h.field == f) = false := by
      rw [List.any_eq_false]
      intro h hm hc
      simp only [Bool.and_eq_true, beq_iff_eq] at hc
      exact fresh_kid_unused db inv.fk h hm hc.1
    have hstep : hSetOne db now key f v =
        .ok (⟨(db.rkey ++ [(⟨freshId db, key, 4, 1, none, now, some 0⟩ : KeyRow)]).map
              (fun k => if k.id == freshId db then
                { k with len := some (k.len.getD 0 + 1) } else k),
             db.rhash ++ [(⟨freshHashRowid db, freshId db, f, v⟩ : HashRow)],
             db.rlist⟩ : Db) := by
      simp only [hSetOne, hUpsertKey, habs, Bind.bind, Except.bind, hUpsertField,
        hanyf, Bool.false_eq_true, if_false]
      rfl
    have hlenBkey : ∀ (x : KeyRow),
        ((if x.id == freshId db then { x with len := some (x.len.getD 0 + 1) }
          else x) : KeyRow).key = x.key := by
      intro x
      by_cases hx : x.id == freshId db <;> simp [hx]
    have hlenBid : ∀ (x : KeyRow),
        ((if x.id == freshId db then { x with len := some (x.len.getD 0 + 1) }
          else x) : KeyRow).id = x.id := by
      intro x
      by_cases hx : x.id == freshId db <;> simp [hx]
    have hkeysEq : ((db.rkey ++ [(⟨freshId db, key, 4, 1, none, now, some 0⟩ : KeyRow)]).map
          (fun k => if k.id == freshId db then { k with len := some (k.len.getD 0 + 1) }
            else k)).map (fun x => x.key) =
        db.rkey.map (fun x => x.key) ++ [key] := by
      rw [List.map_map]
      have hc := List.map_congr_left (l := db.rkey ++
        [(⟨freshId db, key, 4, 1, none, now, some 0⟩ : KeyRow)])
        (fun x _ => hlenBkey x)
      simp only [Function.comp_def]
      rw [hc, List.map_append]
      rfl
    have hkeyNotMem : key ∉ db.rkey.map (fun x => x.key) := by
      intro hmem
      obtain ⟨x, hx, hxeq⟩ := List.mem_map.mp hmem
      exact absurd (by simp [hxeq]) (List.find?_eq_none.mp habs x hx)
    have hnodup' : (((db.rkey ++ [(⟨freshId db, key, 4, 1, none, now, some 0⟩ : KeyRow)]).map
          (fun k => if k.id == freshId db then { k with len := some (k.len.getD 0 + 1) }
            else k)).map (fun x => x.key)).Nodup := by
      rw [hkeysEq]
      rw [List.nodup_append]
      refine ⟨inv.keysNodup, List.nodup_singleton key, ?_⟩
      intro a ha hb
      rw [List.mem_singleton] at hb
      exact hkeyNotMem (hb ▸ ha)
    have hlenBnew : ((if (⟨freshId db, key, 4, 1, none, now, some 0⟩ : KeyRow).id == freshId db
          then { (⟨freshId db, key, 4, 1, none, now, some 0⟩ : KeyRow) with
                 len := some ((⟨freshId db, key, 4, 1, none, now, some 0⟩ : KeyRow).len.getD 0 + 1) }
          else (⟨freshId db, key, 4, 1, none, now, some 0⟩ : KeyRow)) : KeyRow) =
        (⟨freshId db, key, 4, 1, none, now, some 1⟩ : KeyRow) := by
      simp
    have hfind' : ((db.rkey ++ [(⟨freshId db, key, 4, 1, none, now, some 0⟩ : KeyRow)]).map
          (fun k => if k.id == freshId db then { k with len := some (k.len.getD 0 + 1) }
            else k)).find? (fun x => x.key == key) =
        some (⟨freshId db, key, 4, 1, none, now, some 1⟩ : KeyRow) := by
      rw [find?_key_map _ _ hlenBkey, List.find?_append, habs]
      simp only [Option.none_or]
      have hone : List.find? (fun x => x.key == key)
          [(⟨freshId db, key, 4, 1, none, now, some 0⟩ : KeyRow)] =
          some (⟨freshId db, key, 4, 1, none, now, some 0⟩ : KeyRow) := by
        simp
      rw [hone, Option.map_some']
      rw [hlenBnew]
    have hjoin : hashRowsFor ⟨(db.rkey ++
          [(⟨freshId db, key, 4, 1, none, now, some 0⟩ : KeyRow)]).map
            (fun k => if k.id == freshId db then { k with len := some (k.len.getD 0 + 1) }
              else k),
          db.rhash ++ [(⟨freshHashRowid db, freshId db, f, v⟩ : HashRow)],
          db.rlist⟩ now key =
        [(⟨freshHashRowid db, freshId db, f, v⟩ : HashRow)] := by
      rw [hashRowsFor_filter_kid _ now key hnodup'
        (⟨freshId db, key, 4, 1, none, now, some 1⟩ : KeyRow) hfind' rfl rfl]
      show (db.rhash ++ _).filter _ = _
      rw [List.filter_append]
      have h1 : db.rhash.filter (fun h =>
          h.kid == (⟨freshId db, key, 4, 1, none, now, some 1⟩ : KeyRow).id) = [] := by
        rw [List.filter_eq_nil_iff]
        intro h hm hc
        exact fresh_kid_unused db inv.fk h hm (by simpa using hc)
      rw [h1]
      simp
    refine ⟨_, hstep, ⟨hnodup', ?_, ?_⟩, ?_, ?_⟩
    · -- foreign key is preserved and covers the fresh row
      intro h hm
      rcases List.mem_append.mp hm with hold | hnew
      · obtain ⟨k, hk, hid⟩ := inv.fk h hold
        refine ⟨_, List.mem_map_of_mem _ (List.mem_append_left _ hk), ?_⟩
        rw [hlenBid k, hid]
      · rw [List.mem_singleton] at hnew
        refine ⟨_, List.mem_map_of_mem _
          (List.mem_append_right _ (List.mem_singleton_self _)), ?_⟩
        rw [hlenBid, hnew]
    · -- the key is now a live hash
      right
      exact ⟨_, hfind', rfl, rfl⟩
    · -- reading back the written field
      simp only [hGet, hjoin, List.find?_cons, beq_self_eq_true, if_pos]
    · -- other fields are unchanged (they did not exist and still do not)
      intro g hg
      have hnil := hashRowsFor_nil_of_absent db now key habs
      simp only [hGet, hjoin, hnil, List.find?_cons, List.find?_nil]
      have hne : ((⟨freshHashRowid db, freshId db, f, v⟩ : HashRow).field == g) = false := by
        simp [Ne.symm hg]
      rw [hne]
  · -- the key exists as a live hash: conflictType keeps the type
    have hconf : conflictType r.typ 4 = some 4 := by
      rw [htyp]; rfl
    have hrkey : r.key = key := by simpa using List.find?_some hfind
    have hrmem : r ∈ db.rkey := List.mem_of_find?_eq_some hfind
    have hbkey : ∀ (x : KeyRow),
        ((if x.key == key then { x with typ := 4, version := x.version + 1, mtime := now }
          else x) : KeyRow).key = x.key := by
      intro x
      by_cases hx : x.key == key <;> simp [hx]
    have hbid : ∀ (x : KeyRow),
        ((if x.key == key then { x with typ := 4, version := x.version + 1, mtime := now }
          else x) : KeyRow).id = x.id := by
      intro x
      by_cases hx : x.key == key <;> simp [hx]
    have hbet : ∀ (x : KeyRow),
        ((if x.key == key then { x with typ := 4, version := x.version + 1, mtime := now }
          else x) : KeyRow).etime = x.etime := by
      intro x
      by_cases hx : x.key == key <;> simp [hx]
    have hbtyp : ∀ x ∈ db.rkey,
        ((if x.key == key then { x with typ := 4, version := x.version + 1, mtime := now }
          else x) : KeyRow).typ = x.typ := by
      intro x hx
      by_cases hxk : x.key == key
      · have hxr : x = r := keyRow_unique db inv.keysNodup hx hrmem
          (by rw [hrkey]; simpa using hxk)
        subst hxr
        simp [hrkey, htyp]
      · simp [hxk]
    have hbr : ((if r.key == key then { r with typ := 4, version := r.version + 1, mtime := now }
          else r) : KeyRow) =
        (⟨r.id, r.key, 4, r.version + 1, r.etime, now, r.len⟩ : KeyRow) := by
      simp [hrkey]
    have hkeys1 : ((db.rkey.map (fun x =>
          if x.key == key then { x with typ := 4, version := x.version + 1, mtime := now }
          else x)).map (fun x => x.key)) = db.rkey.map (fun x => x.key) := by
      rw [List.map_map]
      simp only [Function.comp_def]
      exact List.map_congr_left (fun x _ => hbkey x)
    have hnodup1 : (((db.rkey.map (fun x =>
          if x.key == key then { x with typ := 4, version := x.version + 1, mtime := now }
          else x))).map (fun x => x.key)).Nodup := by
      rw [hkeys1]; exact inv.keysNodup
    have hfind1 : (db.rkey.map (fun x =>
          if x.key == key then { x with typ := 4, version := x.version + 1, mtime := now }
          else x)).find? (fun x => x.key == key) =
        some (⟨r.id, r.key, 4, r.version + 1, r.etime, now, r.len⟩ : KeyRow) := by
      rw [find?_key_map _ _ hbkey, hfind, Option.map_some']
      rw [hbr]
    have hlive1 : keyLive (⟨r.id, r.key, 4, r.version + 1, r.etime, now, r.len⟩ : KeyRow) now
        = true := by
      rw [keyLive_eq_of_etime (x := (⟨r.id, r.key, 4, r.version + 1, r.etime, now, r.len⟩ :
        KeyRow)) (y := r) rfl]
      exact hlive
    have hjoindb : hashRowsFor db now key = db.rhash.filter (fun h => h.kid == r.id) := by
      have := hashRowsFor_filter_kid db now key inv.keysNodup r hfind htyp hlive
      exact this
    by_cases hx : db.rhash.any (fun h => h.kid == r.id && h.field == f)
    · -- the field exists: `on conflict (kid, field) do update set value`
      have hstep : hSetOne db now key f v =
          .ok (⟨db.rkey.map (fun x =>
                  if x.key == key then { x with typ := 4, version := x.version + 1, mtime := now }
                  else x),
                db.rhash.map (fun h =>
                  if h.kid == r.id && h.field == f then { h with value := v } else h),
                db.rlist⟩ : Db) := by
        simp only [hSetOne, hUpsertKey, hfind, hconf, Bind.bind, Except.bind, hUpsertField]
        rw [if_pos hx]
      have hufkid : ∀ (h : HashRow),
          ((if h.kid == r.id && h.field == f then { h with value := v } else h) : HashRow).kid
            = h.kid := by
        intro h
        by_cases hh : h.kid == r.id && h.field == f <;> simp [hh]
      have huffield : ∀ (h : HashRow),
          ((if h.kid == r.id && h.field == f then { h with value := v } else h) : HashRow).field
            = h.field := by
        intro h
        by_cases hh : h.kid == r.id && h.field == f <;> simp [hh]
      have hjoin1 : hashRowsFor (⟨db.rkey.map (fun x =>
            if x.key == key then { x with typ := 4, version := x.version + 1, mtime := now }
            else x),
            db.rhash.map (fun h =>
              if h.kid == r.id && h.field == f then { h with value := v } else h),
            db.rlist⟩ : Db) now key =
          (db.rhash.filter (fun h => h.kid == r.id)).map (fun h =>
            if h.kid == r.id && h.field == f then { h with value := v } else h) := by
        rw [hashRowsFor_rkey_map _ _ db.rlist db.rlist _ now key
          (fun x _ => hbid x) (fun x _ => hbkey x) hbtyp (fun x _ => hbet x)]
        rw [hashRowsFor_filter_kid (⟨db.rkey,
          db.rhash.map (fun h =>
            if h.kid == r.id && h.field == f then { h with value := v } else h),
          db.rlist⟩ : Db) now key inv.keysNodup r hfind htyp hlive]
        show (db.rhash.map _).filter _ = _
        rw [List.filter_map]
        congr 1
        refine List.filter_congr ?_
        intro h _
        simp only [Function.comp_apply, hufkid h]
      have hfmap : ∀ (l2 : List HashRow) (p : HashRow → Bool) (hp : ∀ h,
          p ((if h.kid == r.id && h.field == f then { h with value := v } else h) : HashRow)
            = p h),
          ((l2.map (fun h =>
            if h.kid == r.id && h.field == f then { h with value := v } else h)).find? p) =
          (l2.find? p).map (fun h =>
            if h.kid == r.id && h.field == f then { h with value := v } else h) := by
        intro l2 p hp
        rw [List.find?_map]
        have hpe : (p ∘ (fun h =>
            if h.kid == r.id && h.field == f then { h with value := v } else h)) = p := by
          funext h
          simp only [Function.comp_apply, hp h]
        rw [hpe]
      refine ⟨_, hstep, ⟨hnodup1, ?_, ?_⟩, ?_, ?_⟩
      · intro h hm
        obtain ⟨h0, hh0, hh0e⟩ := List.mem_map.mp hm
        obtain ⟨k, hk, hid⟩ := inv.fk h0 hh0
        refine ⟨_, List.mem_map_of_mem _ hk, ?_⟩
        rw [hbid k, hid, ← hh0e, hufkid h0]
      · right
        exact ⟨_, hfind1, rfl, hlive1⟩
      · -- reading the written field back
        obtain ⟨h0, hh0, hh0c⟩ := List.any_eq_true.mp hx
        simp only [Bool.and_eq_true, beq_iff_eq] at hh0c
        have hh0mem : h0 ∈ db.rhash.filter (fun h => h.kid == r.id) :=
          List.mem_filter.mpr ⟨hh0, by simp [hh0c.1]⟩
        simp only [hGet, hjoin1]
        rw [hfmap _ _ (fun h => by rw [huffield h])]
        rcases hfs : (db.rhash.filter (fun h => h.kid == r.id)).find?
            (fun h => h.field == f) with _ | h1
        · exact absurd (by simp [hh0c.2]) (List.find?_eq_none.mp hfs h0 hh0mem)
        · have hp1 : h1.field = f := by simpa using List.find?_some hfs
          have hm1 : h1.kid = r.id := by
            have := List.mem_filter.mp (List.mem_of_find?_eq_some hfs)
            simpa using this.2
          rw [hfs, Option.map_some']
          have : ((if h1.kid == r.id && h1.field == f then { h1 with value := v } else h1) :
              HashRow) = { h1 with value := v } := by
            simp [hm1, hp1]
          rw [this]
      · -- other fields unchanged
        intro g hg
        simp only [hGet, hjoin1, hjoindb]
        rw [hfmap _ _ (fun h => by rw [huffield h])]
        rcases hfs : (db.rhash.filter (fun h => h.kid == r.id)).find?
            (fun h => h.field == g) with _ | h1
        · rw [hfs]
          rfl
        · have hp1 : h1.field = g := by simpa using List.find?_some hfs
          rw [hfs, Option.map_some']
          have : ((if h1.kid == r.id && h1.field == f then { h1 with value := v } else h1) :
              HashRow) = h1 := by
            have : (h1.field == f) = false := by
              simp [hp1, hg]
            simp [this]
          rw [this]
    · -- the field is new: insert plus the len-maintaining trigger
      have hxf : db.rhash.any (fun h => h.kid == r.id && h.field == f) = false :=
        Bool.not_eq_true _ ▸ (by simpa using hx)
      have hstep : hSetOne db now key f v =
          .ok (⟨(db.rkey.map (fun x =>
                  if x.key == key then { x with typ := 4, version := x.version + 1, mtime := now }
                  else x)).map (fun k =>
                    if k.id == r.id then { k with len := some (k.len.getD 0 + 1) } else k),
                db.rhash ++ [(⟨freshHashRowid db, r.id, f, v⟩ : HashRow)],
                db.rlist⟩ : Db) := by
        simp only [hSetOne, hUpsertKey, hfind, hconf, Bind.bind, Except.bind, hUpsertField,
          hxf, Bool.false_eq_true, if_false]
        rfl
      have hl2key : ∀ (x : KeyRow),
          ((if x.id == r.id then { x with len := some (x.len.getD 0 + 1) } else x) :
            KeyRow).key = x.key := by
        intro x
        by_cases hx2 : x.id == r.id <;> simp [hx2]
      have hl2id : ∀ (x : KeyRow),
          ((if x.id == r.id then { x with len := some (x.len.getD 0 + 1) } else x) :
            KeyRow).id = x.id := by
        intro x
        by_cases hx2 : x.id == r.id <;> simp [hx2]
      have hl2typ : ∀ (x : KeyRow),
          ((if x.id == r.id then { x with len := some (x.len.getD 0 + 1) } else x) :
            KeyRow).typ = x.typ := by
        intro x
        by_cases hx2 : x.id == r.id <;> simp [hx2]
      have hl2et : ∀ (x : KeyRow),
          ((if x.id == r.id then { x with len := some (x.len.getD 0 + 1) } else x) :
            KeyRow).etime = x.etime := by
        intro x
        by_cases hx2 : x.id == r.id <;> simp [hx2]
      have hnodup2 : ((((db.rkey.map (fun x =>
            if x.key == key then { x with typ := 4, version := x.version + 1, mtime := now }
            else x)).map (fun k =>
              if k.id == r.id then { k with len := some (k.len.getD 0 + 1) } else k))).map
            (fun x => x.key)).Nodup := by
        rw [List.map_map]
        simp only [Function.comp_def]
        have hc := List.map_congr_left (l := db.rkey.map (fun x =>
          if x.key == key then { x with typ := 4, version := x.version + 1, mtime := now }
          else x)) (fun x _ => hl2key x)
        rw [hc]
        exact hnodup1
      have hfind2 : ((db.rkey.map (fun x =>
            if x.key == key then { x with typ := 4, version := x.version + 1, mtime := now }
            else x)).map (fun k =>
              if k.id == r.id then { k with len := some (k.len.getD 0 + 1) } else k)).find?
            (fun x => x.key == key) =
          some (⟨r.id, r.key, 4, r.version + 1, r.etime, now, some (r.len.getD 0 + 1)⟩ :
            KeyRow) := by
        rw [find?_key_map _ _ hl2key, hfind1, Option.map_some']
        simp
      have hlive2 : keyLive (⟨r.id, r.key, 4, r.version + 1, r.etime, now,
          some (r.len.getD 0 + 1)⟩ : KeyRow) now = true := by
        rw [keyLive_eq_of_etime (x := (⟨r.id, r.key, 4, r.version + 1, r.etime, now,
          some (r.len.getD 0 + 1)⟩ : KeyRow)) (y := r) rfl]
        exact hlive
      have hjoin2 : hashRowsFor (⟨(db.rkey.map (fun x =>
            if x.key == key then { x with typ := 4, version := x.version + 1, mtime := now }
            else x)).map (fun k =>
              if k.id == r.id then { k with len := some (k.len.getD 0 + 1) } else k),
            db.rhash ++ [(⟨freshHashRowid db, r.id, f, v⟩ : HashRow)],
            db.rlist⟩ : Db) now key =
          db.rhash.filter (fun h => h.kid == r.id) ++
            [(⟨freshHashRowid db, r.id, f, v⟩ : HashRow)] := by
        rw [hashRowsFor_rkey_map _ _ db.rlist db.rlist _ now key
          (fun x _ => hl2id x) (fun x _ => hl2key x) (fun x _ => hl2typ x)
          (fun x _ => hl2et x)]
        rw [hashRowsFor_rkey_map _ _ db.rlist db.rlist _ now key
          (fun x _ => hbid x) (fun x _ => hbkey x) hbtyp (fun x _ => hbet x)]
        rw [hashRowsFor_filter_kid (⟨db.rkey,
          db.rhash ++ [(⟨freshHashRowid db, r.id, f, v⟩ : HashRow)],
          db.rlist⟩ : Db) now key inv.keysNodup r hfind htyp hlive]
        show (db.rhash ++ _).filter _ = _
        rw [List.filter_append]
        congr 1
        simp
      have hnof : (db.rhash.filter (fun h => h.kid == r.id)).find?
          (fun h => h.field == f) = none := by
        rw [List.find?_eq_none]
        intro h hm hp
        have hm2 := List.mem_filter.mp hm
        rw [List.any_eq_false] at hxf
        exact hxf h hm2.1 (by
          simp only [Bool.and_eq_true]
          exact ⟨by simpa using hm2.2, hp⟩)
      refine ⟨_, hstep, ⟨hnodup2, ?_, ?_⟩, ?_, ?_⟩
      · intro h hm
        rcases List.mem_append.mp hm with hold | hnew
        · obtain ⟨k, hk, hid⟩ := inv.fk h hold
          refine ⟨_, List.mem_map_of_mem _ (List.mem_map_of_mem _ hk), ?_⟩
          rw [hl2id _, hbid k, hid]
        · rw [List.mem_singleton] at hnew
          refine ⟨_, List.mem_map_of_mem _ (List.mem_map_of_mem _ hrmem), ?_⟩
          rw [hl2id _, hbid r, hnew]
      · right
        exact ⟨_, hfind2, rfl, hlive2⟩
      · -- reading the written field back
        simp only [hGet, hjoin2]
        rw [List.find?_append, hnof, Option.none_or]
        simp
      · -- other fields unchanged
        intro g hg
        simp only [hGet, hjoin2, hjoindb]
        rw [List.find?_append]
        have hnew : List.find? (fun h => h.field == g)
            [(⟨freshHashRowid db, r.id, f, v⟩ : HashRow)] = none := by
          simp [Ne.symm hg]
        rw [hnew, Option.or_none]

/-- The `maxID` fold of `Tx.Scan` bounds its seed and every element. -/
theorem maxID_ge (l : List HashRow) : ∀ acc : Nat,
    acc ≤ l.foldl (fun m it => if m < it.rowid then it.rowid else m) acc ∧
    ∀ h ∈ l, h.rowid ≤ l.foldl (fun m it => if m < it.rowid then it.rowid else m) acc := by
  induction l with
  | nil =>
      intro acc
      exact ⟨le_refl _, by simp⟩
  | cons a t ih =>
      intro acc
      rw [List.foldl_cons]
      have hstep : acc ≤ (if acc < a.rowid then a.rowid else acc) := by
        by_cases hc : acc < a.rowid <;> simp [hc]
        omega
      have hstepa : a.rowid ≤ (if acc < a.rowid then a.rowid else acc) := by
        by_cases hc : acc < a.rowid <;> simp [hc]
        omega
      refine ⟨le_trans hstep (ih _).1, ?_⟩
      intro h hm
      rcases List.mem_cons.mp hm with h1 | h1
      · subst h1
        exact le_trans hstepa (ih _).1
      · exact (ih _).2 h h1

/-- The `maxID` fold either returns its seed or the rowid of some
element. -/
theorem maxID_attained (l : List HashRow) : ∀ acc : Nat,
    l.foldl (fun m it => if m < it.rowid then it.rowid else m) acc = acc ∨
    ∃ h ∈ l, l.foldl (fun m it => if m < it.rowid then it.rowid else m) acc = h.rowid := by
  induction l with
  | nil =>
      intro acc
      left
      rfl
  | cons a t ih =>
      intro acc
      rw [List.foldl_cons]
      rcases ih (if acc < a.rowid then a.rowid else acc) with h | ⟨h0, hm, he⟩
      · by_cases hc : acc < a.rowid
        · right
          exact ⟨a, List.mem_cons_self _ _, by rw [h]; simp [hc]⟩
        · left
          rw [h]
          simp [hc]
      · right
        exact ⟨h0, List.mem_cons_of_mem _ hm, he⟩

/-- Under the unique key index, all rows of one hash join share a
`kid`. -/
theorem hashRowsFor_const_kid (db : Db) (now : Int) (key : String)
    (hnodup : (db.rkey.map (·.key)).Nodup) :
    ∀ h1 ∈ hashRowsFor db now key, ∀ h2 ∈ hashRowsFor db now key,
      h1.kid = h2.kid := by
  intro h1 hm1 h2 hm2
  obtain ⟨k1, hk1, hc1⟩ := List.any_eq_true.mp (List.mem_filter.mp hm1).2
  obtain ⟨k2, hk2, hc2⟩ := List.any_eq_true.mp (List.mem_filter.mp hm2).2
  simp only [Bool.and_eq_true, beq_iff_eq] at hc1 hc2
  have : k1 = k2 := keyRow_unique db hnodup hk1 hk2
    (by rw [hc1.1.1.2, hc2.1.1.2])
  rw [hc1.1.1.1, hc2.1.1.1, this]

/-- In a row set with pairwise-equal `kid`s, duplicate-free
`(kid, field)` pairs give duplicate-free fields. -/
theorem nodup_fields_of_pairs2 (l : List HashRow)
    (hkid : ∀ a ∈ l, ∀ b ∈ l, a.kid = b.kid)
    (hp : (l.map (fun h => (h.kid, h.field))).Nodup) :
    (l.map (fun h => h.field)).Nodup := by
  have hp2 : l.Pairwise (fun a b => (a.kid, a.field) ≠ (b.kid, b.field)) :=
    List.pairwise_map.mp hp
  refine List.pairwise_map.mpr ?_
  refine List.Pairwise.imp_of_mem ?_ hp2
  intro a b ha hb hne heq
  exact hne (by rw [hkid a ha b hb, heq])

/-- In a row set with a single `kid`, duplicate-free `(kid, field)`
pairs give duplicate-free fields. -/
theorem nodup_fields_of_pairs (l : List HashRow) (kid : Nat)
    (hkid : ∀ h ∈ l, h.kid = kid)
    (hp : (l.map (fun h => (h.kid, h.field))).Nodup) :
    (l.map (fun h => h.field)).Nodup := by
  have hp2 : l.Pairwise (fun a b => (a.kid, a.field) ≠ (b.kid, b.field)) :=
    List.pairwise_map.mp hp
  have hp3 : l.Pairwise (fun a b => a.field ≠ b.field) := by
    refine List.Pairwise.imp_of_mem ?_ hp2
    intro a b ha hb hne heq
    exact hne (by rw [hkid a ha, hkid b hb, heq])
  exact List.pairwise_map.mpr hp3

/-- Counting the rows whose field is among `fields` equals counting the
fields that have a row, when both sides are duplicate-free (`sqlCount`'s
result as a set intersection). -/
theorem count_inter_comm (rows : List HashRow) (fields : List String)
    (hrow : (rows.map (fun h => h.field)).Nodup) (hf : fields.Nodup) :
    (rows.filter (fun h => fields.contains h.field)).length =
    (fields.filter (fun g => rows.any (fun h => h.field == g))).length := by
  have h1 : ((rows.map (fun h => h.field)).filter (fun s => fields.contains s)).length =
      (rows.filter (fun h => fields.contains h.field)).length := by
    rw [List.filter_map, List.length_map]
    rfl
  have h2 : List.Perm ((rows.map (fun h => h.field)).filter (fun s => fields.contains s))
      (fields.filter (fun g => rows.any (fun h => h.field == g))) := by
    refine (List.perm_ext_iff_of_nodup (hrow.filter _) (hf.filter _)).mpr ?_
    intro s
    simp only [List.mem_filter, List.mem_map, List.any_eq_true]
    constructor
    · rintro ⟨⟨h, hh, rfl⟩, hc⟩
      exact ⟨by simpa using hc, ⟨h, hh, by simp⟩⟩
    · rintro ⟨hs, ⟨h, hh, he⟩⟩
      exact ⟨⟨h, hh, by simpa using he⟩, by simpa using hs⟩
  rw [← h1, h2.length_eq]

/-- The page and cursor computed by one `Tx.Scan` call, with the WHERE
conjuncts split into the glob filter and the cursor filter. -/
theorem hScan_eq (db : Db) (now : Int) (key pattern : String) (count : Nat)
    (hcnt : count ≠ 0) (cursor : Nat) :
    hScan db now key cursor pattern count =
      (((((hashRowsFor db now key).filter
            (fun h => globMatch pattern.data h.field.data)).filter
          (fun h => decide (cursor < h.rowid))).take count).foldl
            (fun m it => if m < it.rowid then it.rowid else m) 0,
       (((hashRowsFor db now key).filter
            (fun h => globMatch pattern.data h.field.data)).filter
          (fun h => decide (cursor < h.rowid))).take count) := by
  have hc0 : (count == 0) = false := by simpa using hcnt
  have hcomm : (hashRowsFor db now key).filter
      (fun h => decide (cursor < h.rowid) && globMatch pattern.data h.field.data) =
      ((hashRowsFor db now key).filter
        (fun h => globMatch pattern.data h.field.data)).filter
        (fun h => decide (cursor < h.rowid)) := by
    rw [List.filter_filter]
  simp only [hScan, hc0, Bool.false_eq_true, if_false, hcomm]

/-- Cursor iteration of the hash scan: with enough fuel it reaches the
empty page, and the concatenation of the pages is exactly the list of
matching live rows past the start cursor, each exactly once. -/
theorem scanSteps_join (db : Db) (now : Int) (key pattern : String) (count : Nat)
    (hcnt : count ≠ 0)
    (hsort : ((hashRowsFor db now key).filter
      (fun h => globMatch pattern.data h.field.data)).Pairwise
        (fun a b => a.rowid < b.rowid))
    (hpos : ∀ h ∈ (hashRowsFor db now key).filter
      (fun h => globMatch pattern.data h.field.data), 0 < h.rowid) :
    ∀ fuel cursor,
      (((hashRowsFor db now key).filter
        (fun h => globMatch pattern.data h.field.data)).filter
          (fun h => decide (cursor < h.rowid))).length < fuel →
      (hScanSteps db now key pattern count fuel cursor).2 = true ∧
      (hScanSteps db now key pattern count fuel cursor).1.join =
        ((hashRowsFor db now key).filter
          (fun h => globMatch pattern.data h.field.data)).filter
            (fun h => decide (cursor < h.rowid)) := by
  intro fuel
  induction fuel with
  | zero =>
      intro cursor h
      omega
  | succ fu ih =>
      intro cursor hlen
      by_cases hS : ((hashRowsFor db now key).filter
          (fun h => globMatch pattern.data h.field.data)).filter
            (fun h => decide (cursor < h.rowid)) = []
      · -- no rows past the cursor: the page is empty, iteration stops
        have hpage : (hScan db now key cursor pattern count).2 = [] := by
          rw [hScan_eq db now key pattern count hcnt cursor, hS]
          simp
        have hsteps : hScanSteps db now key pattern count (fu + 1) cursor = ([], true) := by
          rw [hScanSteps]
          simp only [hpage, List.isEmpty_nil, if_true]
        rw [hsteps, hS]
        exact ⟨rfl, rfl⟩
      · -- a non-empty page: it is the first `count` remaining rows
        rw [hScanSteps]
        rw [hScan_eq db now key pattern count hcnt cursor]
        simp only []
        have hpageNe : (((hashRowsFor db now key).filter
            (fun h => globMatch pattern.data h.field.data)).filter
              (fun h => decide (cursor < h.rowid))).take count ≠ [] := by
          intro hnil
          rcases List.take_eq_nil_iff.mp hnil with h | h
          · exact hcnt h
          · exact hS h
        have hEmpF : ((((hashRowsFor db now key).filter
            (fun h => globMatch pattern.data h.field.data)).filter
              (fun h => decide (cursor < h.rowid))).take count).isEmpty = false := by
          cases hq : (((hashRowsFor db now key).filter
            (fun h => globMatch pattern.data h.field.data)).filter
              (fun h => decide (cursor < h.rowid))).take count with
          | nil => exact absurd hq hpageNe
          | cons a t => rfl
        rw [hEmpF]
        simp only [Bool.false_eq_true, if_false]
        set M := (hashRowsFor db now key).filter
          (fun h => globMatch pattern.data h.field.data) with hM
        set S := M.filter (fun h => decide (cursor < h.rowid)) with hSdef
        set newC := (S.take count).foldl
          (fun m it => if m < it.rowid then it.rowid else m) 0 with hnewC
        have hSsort : S.Pairwise (fun a b => a.rowid < b.rowid) :=
          List.Pairwise.sublist (List.filter_sublist _) hsort
        have hmax := maxID_ge (S.take count) 0
        rw [← hnewC] at hmax
        obtain ⟨e, heMem, heEq⟩ : ∃ e ∈ S.take count, newC = e.rowid := by
          rcases maxID_attained (S.take count) 0 with h0 | ⟨e, hm, he⟩
          · exfalso
            cases hq : S.take count with
            | nil => exact hpageNe hq
            | cons a t =>
                have haMem : a ∈ S.take count := by rw [hq]; exact List.mem_cons_self _ _
                have haS : a ∈ S := List.take_subset _ _ haMem
                have haM : a ∈ M := List.mem_of_mem_filter haS
                have hposa : 0 < a.rowid := hpos a haM
                have hle : a.rowid ≤ newC := hmax.2 a haMem
                rw [hnewC, h0] at hle
                omega
          · exact ⟨e, hm, he⟩
        have heS : e ∈ S := List.take_subset _ _ heMem
        have hcursorLt : cursor < newC := by
          have := (List.mem_filter.mp heS).2
          simp only [decide_eq_true_eq] at this
          omega
        have htd := List.take_append_drop count S
        have hdropFilter : S.filter (fun h => decide (newC < h.rowid)) = S.drop count := by
          conv_lhs => rw [← htd]
          rw [List.filter_append]
          have hP : (S.take count ++ S.drop count).Pairwise
              (fun a b => a.rowid < b.rowid) := by
            rw [htd]
            exact hSsort
          have h1 : (S.take count).filter (fun h => decide (newC < h.rowid)) = [] := by
            rw [List.filter_eq_nil_iff]
            intro x hx hc
            simp only [decide_eq_true_eq] at hc
            have := hmax.2 x hx
            omega
          have h2 : (S.drop count).filter (fun h => decide (newC < h.rowid)) =
              S.drop count := by
            rw [List.filter_eq_self]
            intro y hy
            simp only [decide_eq_true_eq]
            have := (List.pairwise_append.mp hP).2.2 e heMem y hy
            omega
          rw [h1, h2]
          rfl
        have habsorb : M.filter (fun h => decide (newC < h.rowid)) =
            S.filter (fun h => decide (newC < h.rowid)) := by
          conv_rhs => rw [hSdef, List.filter_filter]
          refine List.filter_congr ?_
          intro a _
          by_cases hp : newC < a.rowid
          · have hq : cursor < a.rowid := by omega
            simp [hp, hq]
          · simp [hp]
        have hnext : M.filter (fun h => decide (newC < h.rowid)) = S.drop count := by
          rw [habsorb, hdropFilter]
        have hlenDrop : (M.filter (fun h => decide (newC < h.rowid))).length < fu := by
          rw [hnext, List.length_drop]
          have h2 : 1 ≤ count := Nat.one_le_iff_ne_zero.mpr hcnt
          have h4 : 1 ≤ S.length := List.length_pos.mpr hS
          have h5 : S.length < fu + 1 := hlen
          omega
        obtain ⟨hfin, hjoin⟩ := ih newC hlenDrop
        refine ⟨hfin, ?_⟩
        show S.take count ++ (hScanSteps db now key pattern count fu newC).1.join = S
        rw [hjoin, hnext, htd]

/-- C6: every `Tx.Scan` page contains only rows with id strictly greater
than the cursor, the returned cursor is the maximum id of the page, and
iterating from cursor 0 (passing each returned cursor onward) reaches an
empty page after at most one call per matching row, with the pages
jointly enumerating the matching rows — so each matching field appears
at most once. -/
theorem c6_hash_scan_cursor (db : Db) (now : Int) (key pattern : String)
    (count : Nat) (hwf : Wf db) (hcnt : count ≠ 0) :
    (∀ cursor, ∀ h ∈ (hScan db now key cursor pattern count).2, cursor < h.rowid) ∧
    (∀ cursor, ∀ h ∈ (hScan db now key cursor pattern count).2,
      h.rowid ≤ (hScan db now key cursor pattern count).1) ∧
    (hScanSteps db now key pattern count
        (((hashRowsFor db now key).filter
          (fun h => globMatch pattern.data h.field.data)).length + 1) 0).2 = true ∧
    (hScanSteps db now key pattern count
        (((hashRowsFor db now key).filter
          (fun h => globMatch pattern.data h.field.data)).length + 1) 0).1.join =
      (hashRowsFor db now key).filter (fun h => globMatch pattern.data h.field.data) ∧
    ((((hashRowsFor db now key).filter
        (fun h => globMatch pattern.data h.field.data)).map (fun h => h.field)).Nodup) := by
  have hsubM : ((hashRowsFor db now key).filter
      (fun h => globMatch pattern.data h.field.data)).Sublist db.rhash :=
    (List.filter_sublist _).trans (List.filter_sublist _)
  have hsort : ((hashRowsFor db now key).filter
      (fun h => globMatch pattern.data h.field.data)).Pairwise
      (fun a b => a.rowid < b.rowid) :=
    hwf.hashRowidSorted.sublist hsubM
  have hpos : ∀ h ∈ (hashRowsFor db now key).filter
      (fun h => globMatch pattern.data h.field.data), 0 < h.rowid :=
    fun h hm => hwf.hashRowidPos h (hsubM.subset hm)
  have hpagesub : ∀ cursor, ∀ h ∈ (hScan db now key cursor pattern count).2,
      (decide (cursor < h.rowid) = true) := by
    intro cursor h hm
    rw [hScan_eq db now key pattern count hcnt cursor] at hm
    have hmem : h ∈ ((hashRowsFor db now key).filter
        (fun h => globMatch pattern.data h.field.data)).filter
          (fun h => decide (cursor < h.rowid)) := List.take_subset _ _ hm
    exact (List.mem_filter.mp hmem).2
  refine ⟨?_, ?_, ?_, ?_, ?_⟩
  · intro cursor h hm
    have := hpagesub cursor h hm
    simpa using this
  · intro cursor h hm
    rw [hScan_eq db now key pattern count hcnt cursor] at hm ⊢
    exact (maxID_ge _ 0).2 h hm
  · have hfuel : (((hashRowsFor db now key).filter
        (fun h => globMatch pattern.data h.field.data)).filter
          (fun h => decide ((0 : Nat) < h.rowid))).length <
        ((hashRowsFor db now key).filter
          (fun h => globMatch pattern.data h.field.data)).length + 1 :=
      Nat.lt_succ_of_le (List.length_filter_le _ _)
    exact (scanSteps_join db now key pattern count hcnt hsort hpos _ 0 hfuel).1
  · have hfuel : (((hashRowsFor db now key).filter
        (fun h => globMatch pattern.data h.field.data)).filter
          (fun h => decide ((0 : Nat) < h.rowid))).length <
        ((hashRowsFor db now key).filter
          (fun h => globMatch pattern.data h.field.data)).length + 1 :=
      Nat.lt_succ_of_le (List.length_filter_le _ _)
    have hj := (scanSteps_join db now key pattern count hcnt hsort hpos _ 0 hfuel).2
    rw [hj]
    rw [List.filter_eq_self]
    intro h hm
    simpa using hpos h hm
  · refine nodup_fields_of_pairs2 _ ?_ ((hsubM.map _).nodup hwf.hashNodup)
    intro a ha b hb
    exact hashRowsFor_const_kid db now key hwf.keysNodup a
      (List.mem_of_mem_filter ha) b (List.mem_of_mem_filter hb)

/-- C6 witness: scanning the three-field hash of `dbW6` with pattern `*`
and page size 2. -/
theorem c6_hash_scan_cursor_witness :
    (∀ cursor, ∀ h ∈ (hScan dbW6 5 "h" cursor "*" 2).2, cursor < h.rowid) ∧
    (∀ cursor, ∀ h ∈ (hScan dbW6 5 "h" cursor "*" 2).2,
      h.rowid ≤ (hScan dbW6 5 "h" cursor "*" 2).1) ∧
    (hScanSteps dbW6 5 "h" "*" 2
        (((hashRowsFor dbW6 5 "h").filter
          (fun h => globMatch "*".data h.field.data)).length + 1) 0).2 = true ∧
    (hScanSteps dbW6 5 "h" "*" 2
        (((hashRowsFor dbW6 5 "h").filter
          (fun h => globMatch "*".data h.field.data)).length + 1) 0).1.join =
      (hashRowsFor dbW6 5 "h").filter (fun h => globMatch "*".data h.field.data) ∧
    ((((hashRowsFor dbW6 5 "h").filter
        (fun h => globMatch "*".data h.field.data)).map (fun h => h.field)).Nodup) :=
  c6_hash_scan_cursor dbW6 5 "h" "*" 2
    ⟨by decide, by decide, by decide, by decide, by decide, by decide, by decide⟩
    (by decide)

/-- Effect of `SetMany`'s per-field loop: with duplicate-free fields it
succeeds, leaves fields outside the batch unchanged, and makes every
field of the batch read back as its written value. -/
theorem hSetList_ok (now : Int) (key : String) (items : List (String × String)) :
    ∀ (db : Db), HKeyInv now key db → ((items.map (fun p => p.1)).Nodup) →
    ∃ db2, hSetList db now key items = .ok db2 ∧ HKeyInv now key db2 ∧
      (∀ g, g ∉ items.map (fun p => p.1) → hGet db2 now key g = hGet db now key g) ∧
      (∀ fv ∈ items, hGet db2 now key fv.1 = .ok fv.2) := by
  induction items with
  | nil =>
      intro db inv _
      exact ⟨db, rfl, inv, fun g _ => rfl, by simp⟩
  | cons fv rest ih =>
      intro db inv hnd
      simp only [List.map_cons, List.nodup_cons] at hnd
      obtain ⟨db1, hs1, inv1, hget1, hpres1⟩ := hSetOne_ok db now key fv.1 fv.2 inv
      obtain ⟨db2, hs2, inv2, hpres2, hvals2⟩ := ih db1 inv1 hnd.2
      refine ⟨db2, ?_, inv2, ?_, ?_⟩
      · show (do
          let db1 ← hSetOne db now key fv.1 fv.2
          hSetList db1 now key rest) = .ok db2
        rw [hs1]
        simpa using hs2
      · intro g hg
        simp only [List.map_cons, List.mem_cons, not_or] at hg
        rw [hpres2 g hg.2, hpres1 g hg.1]
      · intro x hx
        rcases List.mem_cons.mp hx with hx1 | hx1
        · subst hx1
          rw [hpres2 x.1 hnd.1]
          exact hget1
        · exact hvals2 x hx1

/-- C7: `SetMany` sets all the given fields; the returned created-count
is the number of given fields minus the number of given fields that
already exist in the hash, which equals `|new_fields \ existing_fields|`
(here: the count of given fields with no live hash row). -/
theorem c7_hash_setMany (db : Db) (now : Int) (key : String)
    (items : List (String × String)) (hwf : Wf db)
    (hok : db.rkey.find? (fun r => r.key == key) = none ∨
      ∃ r, db.rkey.find? (fun r => r.key == key) = some r ∧ r.typ = 4 ∧
        keyLive r now = true)
    (hnd : ((items.map (fun p => p.1)).Nodup)) :
    ∃ db2, hSetMany db now key items =
        .ok (db2, (items.length : Int) - hCount db now key (items.map (fun p => p.1))) ∧
      (hCount db now key (items.map (fun p => p.1)) : Int) =
        (((items.map (fun p => p.1)).filter (fun g =>
          (hashRowsFor db now key).any (fun h => h.field == g))).length : Int) ∧
      ((items.length : Int) - hCount db now key (items.map (fun p => p.1))) =
        (((items.map (fun p => p.1)).filter (fun g =>
          !((hashRowsFor db now key).any (fun h => h.field == g)))).length : Int) ∧
      (∀ fv ∈ items, hGet db2 now key fv.1 = .ok fv.2) := by
  have inv : HKeyInv now key db := ⟨hwf.keysNodup, hwf.hashFk, hok⟩
  obtain ⟨db2, hsl, _, _, hvals⟩ := hSetList_ok now key items db inv hnd
  have hrowsNodup : ((hashRowsFor db now key).map (fun h => h.field)).Nodup := by
    rcases hok with habs | ⟨r, hfind, htyp, hlive⟩
    · rw [hashRowsFor_nil_of_absent db now key habs]
      exact List.nodup_nil
    · rw [hashRowsFor_filter_kid db now key hwf.keysNodup r hfind htyp hlive]
      have hsub : (db.rhash.filter (fun h => h.kid == r.id)).Sublist db.rhash :=
        List.filter_sublist _
      have hpairs : ((db.rhash.filter (fun h => h.kid == r.id)).map
          (fun h => (h.kid, h.field))).Nodup :=
        (hsub.map _).nodup hwf.hashNodup
      refine nodup_fields_of_pairs _ r.id ?_ hpairs
      intro h hm
      simpa using (List.mem_filter.mp hm).2
  have hcnt : hCount db now key (items.map (fun p => p.1)) =
      ((items.map (fun p => p.1)).filter (fun g =>
        (hashRowsFor db now key).any (fun h => h.field == g))).length :=
    count_inter_comm _ _ hrowsNodup hnd
  refine ⟨db2, ?_, by rw [hcnt], ?_, hvals⟩
  · show (do
      let existCount := hCount db now key (items.map (fun (p : String × String) => p.1))
      let db1 ← hSetList db now key items
      Except.ok (db1, (items.length : Int) - existCount)) =
        .ok (db2, (items.length : Int) -
          hCount db now key (items.map (fun (p : String × String) => p.1)))
    rw [hsl]
    rfl
  · have hsplit := (List.filter_append_perm (fun g =>
      (hashRowsFor db now key).any (fun h => h.field == g))
      (items.map (fun p => p.1))).length_eq
    rw [List.length_append] at hsplit
    have hlenf : (items.map (fun p => p.1)).length = items.length := List.length_map _ _
    rw [hcnt]
    omega

/-- C7 witness: `SetMany` on a hash holding `a, b` with the batch
`a := 9, c := 3` (one existing field, one new). -/
theorem c7_hash_setMany_witness :
    ∃ db2, hSetMany dbW7 5 "h" [("a", "9"), ("c", "3")] =
        .ok (db2, (([("a", "9"), ("c", "3")] : List (String × String)).length : Int) -
          hCount dbW7 5 "h" (([("a", "9"), ("c", "3")] :
            List (String × String)).map (fun p => p.1))) ∧
      (hCount dbW7 5 "h" (([("a", "9"), ("c", "3")] :
          List (String × String)).map (fun p => p.1)) : Int) =
        (((([("a", "9"), ("c", "3")] : List (String × String)).map
          (fun p => p.1)).filter (fun g =>
            (hashRowsFor dbW7 5 "h").any (fun h => h.field == g))).length : Int) ∧
      ((([("a", "9"), ("c", "3")] : List (String × String)).length : Int) -
          hCount dbW7 5 "h" (([("a", "9"), ("c", "3")] :
            List (String × String)).map (fun p => p.1))) =
        (((([("a", "9"), ("c", "3")] : List (String × String)).map
          (fun p => p.1)).filter (fun g =>
            !((hashRowsFor dbW7 5 "h").any (fun h => h.field == g)))).length : Int) ∧
      (∀ fv ∈ ([("a", "9"), ("c", "3")] : List (String × String)),
        hGet db2 5 "h" fv.1 = .ok fv.2) :=
  c7_hash_setMany dbW7 5 "h" [("a", "9"), ("c", "3")]
    ⟨by decide, by decide, by decide, by decide, by decide, by decide, by decide⟩
    (Or.inr ⟨⟨1, "h", 4, 1, none, 0, some 2⟩, by decide, by decide, by decide⟩)
    (by decide)

/-- C3: `update(f)` opens a read-write transaction on the `RW` handle
and commits iff `f` returns nil; on an error or panic from `f` the
transaction rolls back, the database is unchanged, and the error is
returned (a panic propagates). `view(f)` opens a read-only transaction
on the `RO` handle; on PostgreSQL that transaction is started with
read-only mode. -/
theorem c3_execTx_envelope {σ : Type} (drv : Driver) (st : σ) (f : σ → FnOut σ) :
    ((updateTx drv st f).handle = Handle.RW ∧
     (updateTx drv st f).readOnlyOpt = false) ∧
    ((updateTx drv st f).committed = true ↔ ∃ st2, f st = .ok st2) ∧
    (∀ st2, f st = .ok st2 → (updateTx drv st f).finalState = st2 ∧
      (updateTx drv st f).result = .ok ()) ∧
    (∀ e, f st = .err e → (updateTx drv st f).committed = false ∧
      (updateTx drv st f).finalState = st ∧ (updateTx drv st f).result = .err e) ∧
    (f st = .panic → (updateTx drv st f).committed = false ∧
      (updateTx drv st f).finalState = st ∧ (updateTx drv st f).result = .panic) ∧
    ((viewTx drv st f).handle = Handle.RO) ∧
    ((viewTx drv st f).readOnlyOpt = true ↔ drv = Driver.postgres) ∧
    (∀ e, f st = .err e → (viewTx drv st f).finalState = st) := by
  refine ⟨⟨rfl, by simp [updateTx, execTx]⟩, ?_, ?_, ?_, ?_, rfl, ?_, ?_⟩
  · constructor
    · intro hc
      rcases hf : f st with st2 | e | _
      · exact ⟨st2, rfl⟩
      · rw [updateTx, execTx] at hc
        simp [hf] at hc
      · rw [updateTx, execTx] at hc
        simp [hf] at hc
    · rintro ⟨st2, hf⟩
      rw [updateTx, execTx]
      simp only [hf]
  · intro st2 hf
    rw [updateTx, execTx]
    simp [hf]
  · intro e hf
    rw [updateTx, execTx]
    simp [hf]
  · intro hf
    rw [updateTx, execTx]
    simp [hf]
  · rw [viewTx, execTx]
    cases drv <;> simp
  · intro e hf
    rw [viewTx, execTx]
    simp [hf]

/-- C3 witness: a committing update (`f` returns nil) and a rolled-back
update (`f` errors) on a concrete counter state. -/
theorem c3_execTx_envelope_witness :
    ((updateTx Driver.postgres (0 : Nat) (fun _ => FnOut.err "boom")).committed = false ∧
     (updateTx Driver.postgres (0 : Nat) (fun _ => FnOut.err "boom")).finalState = 0 ∧
     (updateTx Driver.postgres (0 : Nat) (fun _ => FnOut.err "boom")).result =
       .err "boom") ∧
    ((updateTx Driver.postgres (0 : Nat) (fun n => FnOut.ok (n + 1))).committed = true) ∧
    ((viewTx Driver.postgres (0 : Nat) (fun n => FnOut.ok n)).readOnlyOpt = true) ∧
    ((viewTx Driver.sqlite (0 : Nat) (fun n => FnOut.ok n)).readOnlyOpt = false) := by
  refine ⟨?_, ?_, ?_, ?_⟩
  · exact (c3_execTx_envelope Driver.postgres (0 : Nat)
      (fun _ => FnOut.err "boom")).2.2.2.1 "boom" rfl
  · exact ((c3_execTx_envelope Driver.postgres (0 : Nat)
      (fun n => FnOut.ok (n + 1))).2.1).mpr ⟨1, rfl⟩
  · exact ((c3_execTx_envelope Driver.postgres (0 : Nat)
      (fun n => FnOut.ok n)).2.2.2.2.2.2.1).mpr rfl
  · have h := (c3_execTx_envelope Driver.sqlite (0 : Nat)
      (fun n => FnOut.ok n)).2.2.2.2.2.2.1
    by_cases hb : (viewTx Driver.sqlite (0 : Nat) (fun n => FnOut.ok n)).readOnlyOpt = true
    · exact absurd (h.mp hb) (by decide)
    · simpa using hb

/-- C4: a key whose `etime` is at or before `now` is indistinguishable
from a non-existent key to every read of the hash and list repositories:
because each query filters with `(etime is null or etime > now)`, the
reads return exactly the `ErrNotFound` / zero / empty results that a
missing key produces (and the pops delete nothing). -/
theorem c4_expired_reads_missing (db : Db) (now : Int) (key : String)
    (hdead : ∀ r ∈ db.rkey, r.key = key → ∃ e, r.etime = some e ∧ e ≤ now) :
    (∀ f, hGet db now key f = .error .notFound) ∧
    hLen db now key = 0 ∧
    hFields db now key = [] ∧
    hItems db now key = [] ∧
    (∀ fs, hGetMany db now key fs = []) ∧
    (∀ c pat cnt, hScan db now key c pat cnt = (0, [])) ∧
    lLen db now key = 0 ∧
    (∀ idx, lGet db now key idx = .error .notFound) ∧
    lPopBack db now key = .error .notFound ∧
    lPopFront db now key = .error .notFound := by
  have hh := dead_hashRowsFor db now key hdead
  have hl := dead_listRowsFor db now key hdead
  have hf := dead_findLiveTyped db now key hdead
  refine ⟨?_, ?_, ?_, ?_, ?_, ?_, ?_, ?_, ?_, ?_⟩
  · intro f; simp [hGet, hh]
  · simp [hLen, hf 4]
  · simp [hFields, hh]
  · simp [hItems, hh]
  · intro fs
    rcases fs with _ | ⟨f, _ | ⟨g, rest⟩⟩ <;> simp [hGetMany, hh]
  · intro c pat cnt; simp [hScan, hh]
  · simp [lLen, hf 2]
  · intro idx
    by_cases hneg : idx < 0 <;>
      simp [lGet, hl, hneg, sortAscPos, sortDescPos, withRownum]
  · simp [lPopBack, hf 2]
  · simp [lPopFront, hf 2]

/-- C4 witness: at `now = 10` the key of `dbW4` is expired
(`etime ≤ now`) and every read reports a missing key. -/
theorem c4_expired_reads_missing_witness :
    (∀ r ∈ dbW4.rkey, r.key = "k" → ∃ e, r.etime = some e ∧ e ≤ (10 : Int)) ∧
    ((∀ f, hGet dbW4 10 "k" f = .error .notFound) ∧
     hLen dbW4 10 "k" = 0 ∧
     hFields dbW4 10 "k" = [] ∧
     hItems dbW4 10 "k" = [] ∧
     (∀ fs, hGetMany dbW4 10 "k" fs = []) ∧
     (∀ c pat cnt, hScan dbW4 10 "k" c pat cnt = (0, [])) ∧
     lLen dbW4 10 "k" = 0 ∧
     (∀ idx, lGet dbW4 10 "k" idx = .error .notFound) ∧
     lPopBack dbW4 10 "k" = .error .notFound ∧
     lPopFront dbW4 10 "k" = .error .notFound) :=
  ⟨by decide, c4_expired_reads_missing dbW4 10 "k" (by decide)⟩

/-- Selecting `rownum = t` from the row-numbered list (numbering from
`s`) is list indexing at offset `n` when `t = s + n`. -/
theorem withRownum_find_nat (elems : List String) (s n : Nat) (t : Int)
    (ht : t = ((s + n : Nat) : Int)) :
    (((withRownum elems s).find? (fun p => (p.1 : Int) == t)).map (fun p => p.2)) =
      elems.get? n := by
  induction elems generalizing s n t with
  | nil => simp [withRownum]
  | cons e rest ih =>
    rw [withRownum]
    cases n with
    | zero =>
        have hts : ((s : Int) == t) = true := by
          simp only [beq_iff_eq]; push_cast at ht; omega
        simp [List.find?_cons, hts]
    | succ m =>
        have hts : ((s : Int) == t) = false := by
          simp only [beq_eq_false_iff_ne, ne_eq]; push_cast at ht; omega
        rw [List.find?_cons]
        simp only [hts, Bool.false_eq_true, if_false]
        rw [ih (s + 1) m t (by push_cast at ht ⊢; omega)]
        rfl

/-- C5: `Tx.Get` with `idx ≥ 0` returns the element at offset `idx` of
the list in ascending `pos` order, and with `idx < 0` the element at
offset `-idx-1` in descending `pos` order; an out-of-range offset — in
particular a missing or non-list key, whose join is empty — returns
`ErrNotFound`. -/
theorem c5_list_get (db : Db) (now : Int) (key : String) (idx : Int) :
    (0 ≤ idx → lGet db now key idx =
      (match ((sortAscPos (listRowsFor db now key)).map (·.elem)).get? idx.toNat with
       | some e => .ok e
       | none => .error .notFound)) ∧
    (idx < 0 → lGet db now key idx =
      (match ((sortDescPos (listRowsFor db now key)).map (·.elem)).get? (-idx - 1).toNat with
       | some e => .ok e
       | none => .error .notFound)) ∧
    (listRowsFor db now key = [] → lGet db now key idx = .error .notFound) := by
  have hasc : 0 ≤ idx → lGet db now key idx =
      (match ((sortAscPos (listRowsFor db now key)).map (·.elem)).get? idx.toNat with
       | some e => .ok e
       | none => .error .notFound) := by
    intro hpos
    have hneg : ¬ idx < 0 := not_lt.mpr hpos
    have hx := withRownum_find_nat ((sortAscPos (listRowsFor db now key)).map (·.elem))
      1 idx.toNat (idx + 1) (by push_cast; omega)
    simp only [lGet, if_neg hneg]
    rcases hfind : ((withRownum ((sortAscPos (listRowsFor db now key)).map (·.elem)) 1).find?
        (fun p => (p.1 : Int) == idx + 1)) with _ | p
    · rw [hfind] at hx
      rw [hfind, ← hx]
      rfl
    · rw [hfind] at hx
      rw [hfind, ← hx]
      rfl
  have hdesc : idx < 0 → lGet db now key idx =
      (match ((sortDescPos (listRowsFor db now key)).map (·.elem)).get? (-idx - 1).toNat with
       | some e => .ok e
       | none => .error .notFound) := by
    intro hneg
    have hx := withRownum_find_nat ((sortDescPos (listRowsFor db now key)).map (·.elem))
      1 (-idx - 1).toNat (-idx - 1 + 1) (by push_cast; omega)
    simp only [lGet, if_pos hneg]
    rcases hfind : ((withRownum ((sortDescPos (listRowsFor db now key)).map (·.elem)) 1).find?
        (fun p => (p.1 : Int) == -idx - 1 + 1)) with _ | p
    · rw [hfind] at hx
      rw [hfind, ← hx]
      rfl
    · rw [hfind] at hx
      rw [hfind, ← hx]
      rfl
  refine ⟨hasc, hdesc, ?_⟩
  intro hnil
  by_cases hneg : idx < 0
  · rw [hdesc hneg, hnil]
    simp [sortDescPos]
  · rw [hasc (not_lt.mp hneg), hnil]
    simp [sortAscPos]

/-- C5 witness: on the list `a, b, c`, index 1 yields `b`, index -1
yields `c` (last element), and index 5 is out of range. -/
theorem c5_list_get_witness :
    lGet dbW5 9 "l" 1 = .ok "b" ∧
    lGet dbW5 9 "l" (-1) = .ok "c" ∧
    lGet dbW5 9 "l" 5 = .error .notFound := by
  have h1 := (c5_list_get dbW5 9 "l" 1).1 (by decide)
  have h2 := (c5_list_get dbW5 9 "l" (-1)).2.1 (by decide)
  have h3 := (c5_list_get dbW5 9 "l" 5).1 (by decide)
  refine ⟨?_, ?_, ?_⟩
  · rw [h1]; rfl
  · rw [h2]; rfl
  · rw [h3]; rfl

/-- C10 witness: `Delete` on `dbW10` with fields `["a", "x"]` (one of
which exists). -/
theorem c10_hash_delete_frame_witness :
    hDelete dbW10 5 "h" [] = .ok (dbW10, 0) ∧
    ((∀ h ∈ hashRowsFor dbW10 5 "h", h.field ∉ ["a", "x"]) →
      hDelete dbW10 5 "h" ["a", "x"] = .ok (dbW10, 0)) ∧
    (∀ k0, findLiveTyped dbW10 "h" 4 5 = some k0 →
      0 < (dbW10.rhash.filter (fun h =>
        h.kid == k0.id && ["a", "x"].contains h.field)).length →
      hDelete dbW10 5 "h" ["a", "x"] =
        .ok (⟨dbW10.rkey.map (fun x =>
                if x.key == "h" then
                  hDeleteBump 5 ((dbW10.rhash.filter (fun h =>
                    h.kid == k0.id && ["a", "x"].contains h.field)).length : Int) x
                else x),
              dbW10.rhash.filter (fun h => !(h.kid == k0.id && ["a", "x"].contains h.field)),
              dbW10.rlist⟩,
            (dbW10.rhash.filter (fun h =>
              h.kid == k0.id && ["a", "x"].contains h.field)).length)) :=
  c10_hash_delete_frame dbW10 5 "h" ["a", "x"]
    ⟨by decide, by decide, by decide, by decide, by decide, by decide, by decide⟩

/-- C2: every typed create-if-missing mutation (hash `Set`, list
`PushBack`) that targets an existing, unexpired key of a different type
has its ON CONFLICT upsert's CASE expression produce NULL for
`rkey.type` (`conflictType ... = none`); the NOT NULL constraint aborts
the statement and the operation returns `ErrKeyType`. The erroring
statement yields no successor state, so the key's prior value is
unchanged (the enclosing transaction rolls back, see C3). -/
theorem c2_wrongType_upsert_errKeyType (db : Db) (now : Int)
    (key field value elem : String) (r : KeyRow)
    (hfind : db.rkey.find? (fun x => x.key == key) = some r)
    (_hlive : keyLive r now = true) :
    (r.typ ≠ 4 → conflictType r.typ 4 = none ∧
      hSet db now key field value = .error .keyType) ∧
    (r.typ ≠ 2 → conflictType r.typ 2 = none ∧
      lPushBack db now key elem = .error .keyType) := by
  constructor
  · intro htyp
    have hcase : conflictType r.typ 4 = none := by simp [conflictType, htyp]
    refine ⟨hcase, ?_⟩
    simp [hSet, hSetOne, hUpsertKey, hfind, hcase, Bind.bind, Except.bind]
  · intro htyp
    have hcase : conflictType r.typ 2 = none := by simp [conflictType, htyp]
    refine ⟨hcase, ?_⟩
    simp [lPushBack, lUpsertKey, hfind, hcase, Bind.bind, Except.bind]

/-- C2 witness: a database holding the single string key `"k"`
(type 1, no expiration); both the hash and the list mutation on `"k"`
report `ErrKeyType`. -/
theorem c2_wrongType_upsert_errKeyType_witness :
    (Db.mk [⟨1, "k", 1, 1, none, 0, none⟩] [] []).rkey.find?
        (fun x => x.key == "k") = some ⟨1, "k", 1, 1, none, 0, none⟩ ∧
    ((1 : Nat) ≠ 4 → conflictType 1 4 = none ∧
      hSet (Db.mk [⟨1, "k", 1, 1, none, 0, none⟩] [] []) 5 "k" "f" "v" =
        .error .keyType) ∧
    ((1 : Nat) ≠ 2 → conflictType 1 2 = none ∧
      lPushBack (Db.mk [⟨1, "k", 1, 1, none, 0, none⟩] [] []) 5 "k" "e" =
        .error .keyType) :=
  ⟨by decide,
   c2_wrongType_upsert_errKeyType (Db.mk [⟨1, "k", 1, 1, none, 0, none⟩] [] [])
     5 "k" "f" "v" "e" ⟨1, "k", 1, 1, none, 0, none⟩ (by decide) (by decide)⟩

set_option maxRecDepth 10000 in
/-- C8: `ConvertPlaceholders` rewrites the canonical `sqlDelete2`
placeholders to `$1…$4`; `Tx.Delete` (rhash) applies it
unconditionally before executing, so both engines — PostgreSQL and
SQLite alike — receive the `$N` text rather than the canonical `?`
form. -/
theorem c8_placeholders_rewritten :
    ConvertPlaceholders sqlDelete2 =
      "\n\tupdate rkey set\n\t\tversion = version + 1,\n\t\tmtime = $1,\n\t\tlen = len - $2\n\twhere key = $3 and type = 4 and (etime is null or etime > $4)" ∧
    hDeleteLenQuery Driver.sqlite = ConvertPlaceholders sqlDelete2 ∧
    goContains (hDeleteLenQuery Driver.sqlite) "?" = false ∧
    goContains (hDeleteLenQuery Driver.postgres) "?" = false ∧
    goContains (hDeleteLenQuery Driver.postgres) "$1" = true := by
  refine ⟨by decide, rfl, by decide, by decide, by decide⟩

set_option maxRecDepth 10000 in
/-- C8 counterexample: the length-update text `Tx.Delete` executes
against SQLite is not the canonical query — the `?` placeholders are
not left as-is, they have already become `$N`. -/
theorem c8_sqlite_text_counterexample :
    hDeleteLenQuery Driver.sqlite ≠ sqlDelete2 ∧
    goContains (hDeleteLenQuery Driver.sqlite) "$1" = true := by
  refine ⟨by decide, by decide⟩

set_option maxRecDepth 10000 in
/-- C9: the PostgreSQL rewrite of `sqlScan` replaces ` glob ` with
` ILIKE `, and SQLite executes the canonical GLOB query; but no
glob-to-LIKE wildcard translation exists — the pattern travels as a
bound argument unchanged on both engines. -/
theorem c9_glob_ilike (drv : Driver) (key : String) (now : Int)
    (cursor : Nat) (pattern : String) (count : Nat) :
    goContains sqlScan " glob " = true ∧
    goContains (hScanExec Driver.postgres key now cursor pattern count).query
      " ILIKE " = true ∧
    goContains (hScanExec Driver.postgres key now cursor pattern count).query
      " glob " = false ∧
    (hScanExec Driver.sqlite key now cursor pattern count).query = sqlScan ∧
    (hScanExec drv key now cursor pattern count).argPattern = pattern := by
  refine ⟨by decide, ?_, ?_, rfl, rfl⟩
  · show goContains (AdaptPostgresQuery sqlScan) " ILIKE " = true
    decide
  · show goContains (AdaptPostgresQuery sqlScan) " glob " = false
    decide

set_option maxRecDepth 10000 in
/-- C9 witness: a concrete scan call on PostgreSQL with pattern
`"a*"`. -/
theorem c9_glob_ilike_witness :
    goContains sqlScan " glob " = true ∧
    goContains (hScanExec Driver.postgres "k" 5 0 "a*" 10).query
      " ILIKE " = true ∧
    goContains (hScanExec Driver.postgres "k" 5 0 "a*" 10).query
      " glob " = false ∧
    (hScanExec Driver.sqlite "k" 5 0 "a*" 10).query = sqlScan ∧
    (hScanExec Driver.postgres "k" 5 0 "a*" 10).argPattern = "a*" :=
  c9_glob_ilike Driver.postgres "k" 5 0 "a*" 10

set_option maxRecDepth 10000 in
/-- C9 counterexample: with pattern `"a*"` the PostgreSQL call matches
with ILIKE while the bound pattern stays `"a*"` — not the `"a%"` that
the claimed `*`→`%` translation would produce. -/
theorem c9_pattern_counterexample :
    (hScanExec Driver.postgres "k" 5 0 "a*" 10).argPattern = "a*" ∧
    globToLikeSpec "a*" = "a%" ∧
    (hScanExec Driver.postgres "k" 5 0 "a*" 10).argPattern ≠ globToLikeSpec "a*" ∧
    goContains (hScanExec Driver.postgres "k" 5 0 "a*" 10).query " ILIKE " = true := by
  refine ⟨rfl, by decide, by decide, ?_⟩
  show goContains (AdaptPostgresQuery sqlScan) " ILIKE " = true
  decide

/-- Destination rule of `setStoreApply` on a wrong-typed `dest`: an
empty result is a no-op returning 0, a non-empty result raises
`ErrKeyType`. -/
theorem setStoreApply_wrongType (db : List (String × RVal)) (dest : String)
    (res : List String) (v : RVal) (hget : kvGet db dest = some v)
    (hns : ∀ xs, v ≠ RVal.set xs) :
    (res = [] → setStoreApply db dest res = .ok (db, 0)) ∧
    (res ≠ [] → setStoreApply db dest res = .error .keyType) := by
  constructor
  · intro hres
    subst hres
    cases v with
    | set xs => exact absurd rfl (hns xs)
    | str s => simp [setStoreApply, hget]
    | listv l => simp [setStoreApply, hget]
    | hash h => simp [setStoreApply, hget]
    | zset z => simp [setStoreApply, hget]
  · intro hres
    have hne : res.isEmpty = false := by
      cases res with
      | nil => exact absurd rfl hres
      | cons a l => rfl
    cases v with
    | set xs => exact absurd rfl (hns xs)
    | str s => simp [setStoreApply, hget, hne]
    | listv l => simp [setStoreApply, hget, hne]
    | hash h => simp [setStoreApply, hget, hne]
    | zset z => simp [setStoreApply, hget, hne]

/-- Destination rule of `zStoreApply` on a wrong-typed `dest`. -/
theorem zStoreApply_wrongType (db : List (String × RVal)) (dest : String)
    (res : List (String × Rat)) (v : RVal) (hget : kvGet db dest = some v)
    (hnz : ∀ xs, v ≠ RVal.zset xs) :
    (res = [] → zStoreApply db dest res = .ok (db, 0)) ∧
    (res ≠ [] → zStoreApply db dest res = .error .keyType) := by
  constructor
  · intro hres
    subst hres
    cases v with
    | zset xs => exact absurd rfl (hnz xs)
    | str s => simp [zStoreApply, hget]
    | listv l => simp [zStoreApply, hget]
    | hash h => simp [zStoreApply, hget]
    | set z => simp [zStoreApply, hget]
  · intro hres
    have hne : res.isEmpty = false := by
      cases res with
      | nil => exact absurd rfl hres
      | cons a l => rfl
    cases v with
    | zset xs => exact absurd rfl (hnz xs)
    | str s => simp [zStoreApply, hget, hne]
    | listv l => simp [zStoreApply, hget, hne]
    | hash h => simp [zStoreApply, hget, hne]
    | set z => simp [zStoreApply, hget, hne]

/-- C1: for each of the five store operations (`sdiffstore`,
`sinterstore`, `sunionstore`, `zinterstore`, `zunionstore`) whose
destination key exists with a type that is neither set nor sorted set:
when the computed result is empty the operation returns 0 with no error
and the state — in particular the destination's original value — is
untouched; when the computed result is non-empty it raises
`ErrKeyType`. -/
theorem c1_store_wrongType_dest (db : List (String × RVal)) (dest : String)
    (keys : List String) (v : RVal) (hget : kvGet db dest = some v)
    (hns : ∀ xs, v ≠ RVal.set xs) (hnz : ∀ xs, v ≠ RVal.zset xs) :
    (sDiffCompute db keys = [] → sDiffStore db dest keys = .ok (db, 0)) ∧
    (sDiffCompute db keys ≠ [] → sDiffStore db dest keys = .error .keyType) ∧
    (sInterCompute db keys = [] → sInterStore db dest keys = .ok (db, 0)) ∧
    (sInterCompute db keys ≠ [] → sInterStore db dest keys = .error .keyType) ∧
    (sUnionCompute db keys = [] → sUnionStore db dest keys = .ok (db, 0)) ∧
    (sUnionCompute db keys ≠ [] → sUnionStore db dest keys = .error .keyType) ∧
    (zInterCompute db keys = [] → zInterStore db dest keys = .ok (db, 0)) ∧
    (zInterCompute db keys ≠ [] → zInterStore db dest keys = .error .keyType) ∧
    (zUnionCompute db keys = [] → zUnionStore db dest keys = .ok (db, 0)) ∧
    (zUnionCompute db keys ≠ [] → zUnionStore db dest keys = .error .keyType) := by
  refine ⟨?_, ?_, ?_, ?_, ?_, ?_, ?_, ?_, ?_, ?_⟩
  · exact (setStoreApply_wrongType db dest (sDiffCompute db keys) v hget hns).1
  · exact (setStoreApply_wrongType db dest (sDiffCompute db keys) v hget hns).2
  · exact (setStoreApply_wrongType db dest (sInterCompute db keys) v hget hns).1
  · exact (setStoreApply_wrongType db dest (sInterCompute db keys) v hget hns).2
  · exact (setStoreApply_wrongType db dest (sUnionCompute db keys) v hget hns).1
  · exact (setStoreApply_wrongType db dest (sUnionCompute db keys) v hget hns).2
  · exact (zStoreApply_wrongType db dest (zInterCompute db keys) v hget hnz).1
  · exact (zStoreApply_wrongType db dest (zInterCompute db keys) v hget hnz).2
  · exact (zStoreApply_wrongType db dest (zUnionCompute db keys) v hget hnz).1
  · exact (zStoreApply_wrongType db dest (zUnionCompute db keys) v hget hnz).2

/-- C1 witness: in `c1StoreDemoDb` the destination `"d"` is a string;
the intersection of the disjoint sets `"k1"`, `"k2"` is empty while
their union is not, so both branches of the rule are exercised. -/
theorem c1_store_wrongType_dest_witness :
    kvGet c1StoreDemoDb "d" = some (RVal.str "old") ∧
    sInterCompute c1StoreDemoDb ["k1", "k2"] = [] ∧
    sUnionCompute c1StoreDemoDb ["k1", "k2"] = ["a", "b"] ∧
    ((sDiffCompute c1StoreDemoDb ["k1", "k2"] = [] →
        sDiffStore c1StoreDemoDb "d" ["k1", "k2"] = .ok (c1StoreDemoDb, 0)) ∧
     (sDiffCompute c1StoreDemoDb ["k1", "k2"] ≠ [] →
        sDiffStore c1StoreDemoDb "d" ["k1", "k2"] = .error .keyType) ∧
     (sInterCompute c1StoreDemoDb ["k1", "k2"] = [] →
        sInterStore c1StoreDemoDb "d" ["k1", "k2"] = .ok (c1StoreDemoDb, 0)) ∧
     (sInterCompute c1StoreDemoDb ["k1", "k2"] ≠ [] →
        sInterStore c1StoreDemoDb "d" ["k1", "k2"] = .error .keyType) ∧
     (sUnionCompute c1StoreDemoDb ["k1", "k2"] = [] →
        sUnionStore c1StoreDemoDb "d" ["k1", "k2"] = .ok (c1StoreDemoDb, 0)) ∧
     (sUnionCompute c1StoreDemoDb ["k1", "k2"] ≠ [] →
        sUnionStore c1StoreDemoDb "d" ["k1", "k2"] = .error .keyType) ∧
     (zInterCompute c1StoreDemoDb ["k1", "k2"] = [] →
        zInterStore c1StoreDemoDb "d" ["k1", "k2"] = .ok (c1StoreDemoDb, 0)) ∧
     (zInterCompute c1StoreDemoDb ["k1", "k2"] ≠ [] →
        zInterStore c1StoreDemoDb "d" ["k1", "k2"] = .error .keyType) ∧
     (zUnionCompute c1StoreDemoDb ["k1", "k2"] = [] →
        zUnionStore c1StoreDemoDb "d" ["k1", "k2"] = .ok (c1StoreDemoDb, 0)) ∧
     (zUnionCompute c1StoreDemoDb ["k1", "k2"] ≠ [] →
        zUnionStore c1StoreDemoDb "d" ["k1", "k2"] = .error .keyType)) :=
  ⟨by decide, by decide, by decide,
   c1_store_wrongType_dest c1StoreDemoDb "d" ["k1", "k2"] (RVal.str "old")
     (by decide)
     (fun xs h => RVal.noConfusion h)
     (fun xs h => RVal.noConfusion h)⟩

end Redka
